import Mathlib

/-!
# Verification of the FlashCard vault storage engine

A shallow embedding, in Lean 4, of the storage-engine core of the FlashCard
application: the card/set data model (`models/flashcard.py`,
`models/content_blocks.py`), filename sanitisation and media copying
(`utils/file_manager.py`, `VaultManager.copy_media_file`), icon-set validation
and merging (`vault/icon_manager.py`), and the vault manager's load/save,
single-set import and merge-mode vault import (`vault/vault_manager.py`).

Python machine-level details are modelled as follows: Python `int` is `Int`
(list indices) or `Nat` (counters that are only ever incremented from a
positive start), Python strings are Lean `String` (one `Char` per code
point, as `len`/slicing in the source count code points), dictionaries
read with `.get` are structures with `Option` fields, exceptions are
`Except`, and the filesystem is an explicit association-list state.
Calls to `datetime.now()` and `uuid.uuid4()` are threaded as explicit
`now`/`fresh` parameters.
-/

namespace FlashCardProof

/-! ## Decimal representation: `Nat.repr` is injective

The import-rename loops (`"name 2"`, `"name 3"`, …) and the media collision
loop (`name_1.ext`, `name_2.ext`, …) terminate because the decimal strings of
distinct numbers are distinct.  Core Lean provides no injectivity lemma for
`Nat.repr`, so we prove one by evaluating the produced digit string back to a
number. -/

/-- Numeric value of a decimal digit character. -/
def digitVal (c : Char) : Nat := c.toNat - 48

/-- Evaluate a list of decimal digit characters (most significant first). -/
def decDigitsVal (l : List Char) : Nat := l.foldl (fun a c => a * 10 + digitVal c) 0

theorem digitVal_digitChar : ∀ m, m < 10 → digitVal (Nat.digitChar m) = m := by decide

theorem toDigitsCore_append (f : Nat) :
    ∀ (n : Nat) (l : List Char),
      Nat.toDigitsCore 10 f n l = Nat.toDigitsCore 10 f n [] ++ l := by
  induction f with
  | zero => intro n l; simp [Nat.toDigitsCore]
  | succ f ih =>
    intro n l
    simp only [Nat.toDigitsCore]
    by_cases h : n / 10 = 0
    · simp [h]
    · simp only [h, if_false]
      rw [ih (n / 10) [Nat.digitChar (n % 10)], ih (n / 10) (Nat.digitChar (n % 10) :: l),
        List.append_assoc]
      rfl

theorem decDigitsVal_toDigitsCore (f : Nat) :
    ∀ n : Nat, n < f → decDigitsVal (Nat.toDigitsCore 10 f n []) = n := by
  induction f with
  | zero => intro n h; omega
  | succ f ih =>
    intro n hn
    simp only [Nat.toDigitsCore]
    by_cases h : n / 10 = 0
    · have hlt : n < 10 := by
        rcases Nat.lt_or_ge n 10 with h10 | h10
        · exact h10
        · exact absurd h (by omega)
      have hmod : n % 10 = n := Nat.mod_eq_of_lt hlt
      simp [h, decDigitsVal, hmod, digitVal_digitChar n hlt]
    · have hdivlt : n / 10 < f := by
        have h1 : 0 < n := by
          rcases Nat.eq_zero_or_pos n with rfl | hp
          · simp at h
          · exact hp
        have := Nat.div_lt_self h1 (by omega : (1:Nat) < 10)
        omega
      simp only [h, if_false]
      rw [toDigitsCore_append f (n / 10) [Nat.digitChar (n % 10)]]
      have hval := ih (n / 10) hdivlt
      simp only [decDigitsVal] at hval ⊢
      rw [List.foldl_append, hval]
      simp [digitVal_digitChar (n % 10) (Nat.mod_lt n (by omega))]
      omega

/-- Decode the decimal string produced by `Nat.repr` back to the number. -/
theorem decDigitsVal_repr (n : Nat) : decDigitsVal (Nat.repr n).data = n := by
  have h : (Nat.repr n).data = Nat.toDigitsCore 10 (n + 1) n [] := rfl
  rw [h]
  exact decDigitsVal_toDigitsCore (n + 1) n (Nat.lt_succ_self n)

theorem repr_injective : Function.Injective Nat.repr := by
  intro a b h
  have := congrArg (fun s : String => decDigitsVal s.data) h
  simpa [decDigitsVal_repr] using this

/-! ## Bounded search for a free name

Both rename loops in the source are `while candidate taken: counter += 1`.
They are embedded as a fuel-bounded search; `taken.length + 1` fuel always
suffices because the candidate names are pairwise distinct. -/

/-- `while f k ∈ taken: k += 1`, with explicit fuel. -/
def findFreeFrom (f : Nat → String) (taken : List String) : Nat → Nat → Nat
  | 0, k => k
  | fuel + 1, k => if f k ∈ taken then findFreeFrom f taken fuel (k + 1) else k

/-- The search with the fuel that is always enough. -/
def findFreeIdx (f : Nat → String) (taken : List String) (start : Nat) : Nat :=
  findFreeFrom f taken (taken.length + 1) start

theorem findFreeFrom_spec (f : Nat → String) (taken : List String) :
    ∀ (fuel k : Nat), (∃ i, i ≤ fuel ∧ f (k + i) ∉ taken) →
      f (findFreeFrom f taken fuel k) ∉ taken ∧
      k ≤ findFreeFrom f taken fuel k ∧
      ∀ j, k ≤ j → j < findFreeFrom f taken fuel k → f j ∈ taken := by
  intro fuel
  induction fuel with
  | zero =>
    intro k h
    obtain ⟨i, hi, hfree⟩ := h
    have : i = 0 := by omega
    subst this
    simp only [findFreeFrom]
    exact ⟨by simpa using hfree, Nat.le_refl k, fun j h1 h2 => absurd h2 (by omega)⟩
  | succ fuel ih =>
    intro k h
    simp only [findFreeFrom]
    by_cases hk : f k ∈ taken
    · rw [if_pos hk]
      have hnext : ∃ i, i ≤ fuel ∧ f (k + 1 + i) ∉ taken := by
        obtain ⟨i, hi, hfree⟩ := h
        match i, hi, hfree with
        | 0, _, hfree => exact absurd (by simpa using hfree) (by simp [hk])
        | i + 1, hi, hfree =>
          exact ⟨i, by omega, by simpa [Nat.add_assoc, Nat.add_comm 1 i] using hfree⟩
      obtain ⟨hfree, hge, hmin⟩ := ih (k + 1) hnext
      refine ⟨hfree, by omega, fun j h1 h2 => ?_⟩
      rcases Nat.eq_or_lt_of_le h1 with rfl | h1'
      · exact hk
      · exact hmin j (by omega) h2
    · rw [if_neg hk]
      exact ⟨hk, Nat.le_refl k, fun j h1 h2 => absurd h2 (by omega)⟩

theorem exists_free_candidate (f : Nat → String) (hinj : Function.Injective f)
    (taken : List String) (k : Nat) :
    ∃ i, i ≤ taken.length ∧ f (k + i) ∉ taken := by
  by_contra hcon
  push_neg at hcon
  have hsub : ((List.range (taken.length + 1)).map fun i => f (k + i)) ⊆ taken := by
    intro x hx
    obtain ⟨i, hi, rfl⟩ := List.mem_map.mp hx
    exact hcon i (by simpa using Nat.lt_succ_iff.mp (List.mem_range.mp hi))
  have hnd : ((List.range (taken.length + 1)).map fun i => f (k + i)).Nodup := by
    refine List.Nodup.map ?_ (List.nodup_range _)
    intro a b hab
    have := hinj hab
    omega
  have hlen := (List.subperm_of_subset hnd hsub).length_le
  simp at hlen

theorem findFreeIdx_spec (f : Nat → String) (hinj : Function.Injective f)
    (taken : List String) (start : Nat) :
    f (findFreeIdx f taken start) ∉ taken ∧
    start ≤ findFreeIdx f taken start ∧
    ∀ j, start ≤ j → j < findFreeIdx f taken start → f j ∈ taken := by
  refine findFreeFrom_spec f taken (taken.length + 1) start ?_
  obtain ⟨i, hi, hfree⟩ := exists_free_candidate f hinj taken start
  exact ⟨i, by omega, hfree⟩

/-! ## Common: Python exception values -/

/-- A single-quote character, used in the error messages of the source. -/
def sq : Char := '\x27'

/-- `'name'` as it appears inside the source's error messages. -/
def quoted (s : String) : String := String.mk (sq :: (s.data ++ [sq]))

/-- The Python exception kinds that the storage engine raises. -/
inductive PyErr where
  | valueError (msg : String)
  | ioError (msg : String)
  | fileNotFoundError (msg : String)
  deriving DecidableEq, Repr

/-! ## `utils/file_manager.py`: `FileManager.safe_filename`

The sanitiser works on Python strings; `len` and slicing count code points,
so the embedding works on `List Char`. -/

/-- The characters rejected by `re.sub(r'[<>:"/\\|?*]', '_', filename)`. -/
def isIllegalFsChar (c : Char) : Bool :=
  c = '<' || c = '>' || c = ':' || c = '"' || c = '/' || c = '\\' || c = '|' ||
    c = '?' || c = '*'

/-- `re.sub(r'[<>:"/\\|?*]', '_', filename)`: each illegal character becomes `_`. -/
def replaceIllegal (l : List Char) : List Char :=
  l.map fun c => if isIllegalFsChar c then '_' else c

/-- The strip set of `filename.strip(' .')`: space and dot only. -/
def isSpaceOrDot (c : Char) : Bool := c = ' ' || c = '.'

/-- Python `str.strip(chars)`: drop the given characters from both ends. -/
def pyStrip (p : Char → Bool) (l : List Char) : List Char :=
  ((l.dropWhile p).reverse.dropWhile p).reverse

/-- Index of the last `.` of a plain file name, if any. -/
def lastDotIdx (l : List Char) : Option Nat :=
  match l.reverse.findIdx? (fun c => c = '.') with
  | none => none
  | some j => some (l.length - 1 - j)

/-- The split position used by `pathlib`: the last dot, provided it is neither
the leading character nor the trailing character. -/
def pathSplitIdx (l : List Char) : Option Nat :=
  match lastDotIdx l with
  | some i => if 0 < i ∧ i < l.length - 1 then some i else none
  | none => none

/-- `pathlib.PurePath(name).stem` for a bare file name. -/
def pathStem (l : List Char) : List Char :=
  match pathSplitIdx l with
  | some i => l.take i
  | none => l

/-- `pathlib.PurePath(name).suffix` for a bare file name. -/
def pathExt (l : List Char) : List Char :=
  match pathSplitIdx l with
  | some i => l.drop i
  | none => []

/-- Python `s[:k]` for a possibly negative bound `k`:
`s[:k]` is `s[0:k]` for `0 ≤ k` and `s[0:max(0, len(s)+k)]` for `k < 0`. -/
def pySliceTo (l : List Char) (k : Int) : List Char :=
  if 0 ≤ k then l.take k.toNat else l.take (((l.length : Int) + k).toNat)

/-- `FileManager.safe_filename`. -/
def safe_filename (filename : String) : String :=
  let replaced := replaceIllegal filename.data
  let stripped := pyStrip isSpaceOrDot replaced
  let named := if stripped = [] then "untitled".data else stripped
  let limited :=
    if 255 < named.length then
      pySliceTo (pathStem named) ((255 : Int) - (pathExt named).length) ++ pathExt named
    else named
  String.mk limited

/-! ## `VaultManager.copy_media_file` (with `FileManager.copy_file`)

The media directories of one set are modelled as the lists of file names
present in `images/` and `sounds/`. -/

structure MediaDirs where
  images : List String
  sounds : List String
  deriving DecidableEq, Repr

/-- The collision candidate `f"{stem}_{counter}{suffix}"`. -/
def mediaCandidate (safeName : String) (k : Nat) : String :=
  String.mk (pathStem safeName.data) ++ "_" ++ Nat.repr k ++ String.mk (pathExt safeName.data)

/-- The `while dest_path.exists()` loop of `copy_media_file`: the safe name
itself if free, otherwise the first free suffixed candidate from counter 1. -/
def resolveMediaName (safeName : String) (files : List String) : String :=
  if safeName ∈ files then
    mediaCandidate safeName (findFreeIdx (mediaCandidate safeName) files 1)
  else safeName

/-- `VaultManager.copy_media_file`.  `sourceExists` is `source.exists()`, and
`copyFails` signals a failing `shutil.copy2` inside `FileManager.copy_file`. -/
def copy_media_file (dirs : MediaDirs) (sourceName : String) (sourceExists : Bool)
    (media_type : String) (copyFails : Bool) : Except PyErr (String × MediaDirs) :=
  if media_type ≠ "image" && media_type ≠ "audio" && media_type ≠ "video" then
    .error (.valueError ("Invalid media type: " ++ media_type))
  else if !sourceExists then
    .error (.fileNotFoundError ("Source file not found: " ++ sourceName))
  else
    let safeName := safe_filename sourceName
    let destFiles := if media_type = "image" then dirs.images else dirs.sounds
    let destName := resolveMediaName safeName destFiles
    if copyFails then
      .error (.ioError "Failed to copy file: copy error")
    else if media_type = "image" then
      .ok (destName, { dirs with images := dirs.images ++ [destName] })
    else
      .ok (destName, { dirs with sounds := dirs.sounds ++ [destName] })

example : safe_filename "a<b" = "a_b" := by decide
example : safe_filename " .name. " = "name" := by decide
example : safe_filename "" = "untitled" := by decide
example : String.mk (pathExt "foo.tar.gz".data) = ".gz" := by decide
example : String.mk (pathExt "foo.".data) = "" := by decide
example : String.mk (pathStem ".bashrc".data) = ".bashrc" := by decide
example : resolveMediaName "a.png" ["a.png"] = "a_1.png" := by decide
example : resolveMediaName "a.png" ["a.png", "a_1.png"] = "a_2.png" := by decide
example : resolveMediaName "a.png" ["b.png"] = "a.png" := by decide

/-! ## `models/content_blocks.py`: content blocks

Each variant carries exactly the serialised mutable fields; class constants
(`max_chars`, `max_width`, …) are not instance data.  Serialised dictionaries
are structures with `Option` fields so that `data.get(key, default)` is
modelled faithfully.  The fresh `uuid.uuid4()` and `datetime.now()` values
produced by the constructors are explicit `freshId`/`now` arguments. -/

inductive Block where
  | text (block_id : String) (text_content : String) (font_size : Int)
      (alignment : String) (created_date : String)
  | image (block_id : String) (image_path : String) (original_filename : String)
      (width : Int) (height : Int) (created_date : String)
  | audio (block_id : String) (audio_path : String) (original_filename : String)
      (duration : Int) (created_date : String)
  | video (block_id : String) (video_path : String) (original_filename : String)
      (duration : Int) (thumbnail_path : String) (created_date : String)
  deriving DecidableEq, Repr

structure BlockDict where
  block_id : Option String := none
  block_type : Option String := none
  text_content : Option String := none
  font_size : Option Int := none
  alignment : Option String := none
  image_path : Option String := none
  audio_path : Option String := none
  video_path : Option String := none
  original_filename : Option String := none
  width : Option Int := none
  height : Option Int := none
  duration : Option Int := none
  thumbnail_path : Option String := none
  created_date : Option String := none
  deriving DecidableEq, Repr

/-- `to_dict` of each block class. -/
def Block.to_dict : Block → BlockDict
  | .text id tc fs al cd =>
      { block_id := some id, block_type := some "text", text_content := some tc,
        font_size := some fs, alignment := some al, created_date := some cd }
  | .image id ip orig w h cd =>
      { block_id := some id, block_type := some "image", image_path := some ip,
        original_filename := some orig, width := some w, height := some h,
        created_date := some cd }
  | .audio id ap orig dur cd =>
      { block_id := some id, block_type := some "audio", audio_path := some ap,
        original_filename := some orig, duration := some dur, created_date := some cd }
  | .video id vp orig dur tp cd =>
      { block_id := some id, block_type := some "video", video_path := some vp,
        original_filename := some orig, duration := some dur,
        thumbnail_path := some tp, created_date := some cd }

/-- `create_block_from_dict`: dispatch on the `block_type` discriminator, then
the per-class `from_dict` with its `data.get` defaults. -/
def create_block_from_dict (freshId now : String) (d : BlockDict) : Except String Block :=
  match d.block_type with
  | some "text" =>
      .ok (.text (d.block_id.getD freshId) (d.text_content.getD "")
        (d.font_size.getD 12) (d.alignment.getD "left") (d.created_date.getD now))
  | some "image" =>
      .ok (.image (d.block_id.getD freshId) (d.image_path.getD "")
        (d.original_filename.getD "") (d.width.getD 0) (d.height.getD 0)
        (d.created_date.getD now))
  | some "audio" =>
      .ok (.audio (d.block_id.getD freshId) (d.audio_path.getD "")
        (d.original_filename.getD "") (d.duration.getD 0) (d.created_date.getD now))
  | some "video" =>
      .ok (.video (d.block_id.getD freshId) (d.video_path.getD "")
        (d.original_filename.getD "") (d.duration.getD 0) (d.thumbnail_path.getD "")
        (d.created_date.getD now))
  | _ => .error "Unknown block type"

/-! ## `models/flashcard.py`: `FlashCard` -/

structure FlashCard where
  card_id : String
  information_side : List Block
  answer_side : List Block
  status : String
  created_date : String
  last_studied : Option String
  deriving DecidableEq, Repr

/-- `FlashCard.__init__`. -/
def FlashCard.new (card_id now : String) : FlashCard :=
  { card_id := card_id, information_side := [], answer_side := [],
    status := "Unknown", created_date := now, last_studied := none }

def maxBlocksMsg : String := "Maximum of 10 blocks per side allowed"

def invalidSideMsg : String :=
  "Invalid side. Must be " ++ quoted "information" ++ " or " ++ quoted "answer"

/-- `FlashCard.add_block_to_side`. -/
def FlashCard.add_block_to_side (c : FlashCard) (side : String) (b : Block) :
    Except String FlashCard :=
  if side = "information" then
    if 10 ≤ c.information_side.length then .error maxBlocksMsg
    else .ok { c with information_side := c.information_side ++ [b] }
  else if side = "answer" then
    if 10 ≤ c.answer_side.length then .error maxBlocksMsg
    else .ok { c with answer_side := c.answer_side ++ [b] }
  else .error invalidSideMsg

/-- `FlashCard.remove_block_from_side`.  A Python index is an `Int`. -/
def FlashCard.remove_block_from_side (c : FlashCard) (side : String) (block_index : Int) :
    Except String FlashCard :=
  if side = "information" then
    if 0 ≤ block_index ∧ block_index < (c.information_side.length : Int) then
      .ok { c with information_side := c.information_side.eraseIdx block_index.toNat }
    else .error "Block index out of range"
  else if side = "answer" then
    if 0 ≤ block_index ∧ block_index < (c.answer_side.length : Int) then
      .ok { c with answer_side := c.answer_side.eraseIdx block_index.toNat }
    else .error "Block index out of range"
  else .error invalidSideMsg

/-- `blocks.pop(from_index); blocks.insert(to_index, block)` after the bounds
check shared by `move_block` and `move_card`. -/
def pyListMove {α : Type} (l : List α) (from_index to_index : Int) : Option (List α) :=
  if h : 0 ≤ from_index ∧ from_index < (l.length : Int) ∧ 0 ≤ to_index ∧
      to_index < (l.length : Int) then
    some ((l.eraseIdx from_index.toNat).insertIdx to_index.toNat
      (l.get ⟨from_index.toNat, by omega⟩))
  else none

/-- `FlashCard.move_block`. -/
def FlashCard.move_block (c : FlashCard) (side : String) (from_index to_index : Int) :
    Except String FlashCard :=
  if side = "information" then
    match pyListMove c.information_side from_index to_index with
    | some l => .ok { c with information_side := l }
    | none => .error "Block index out of range"
  else if side = "answer" then
    match pyListMove c.answer_side from_index to_index with
    | some l => .ok { c with answer_side := l }
    | none => .error "Block index out of range"
  else .error invalidSideMsg

structure CardDict where
  card_id : Option String := none
  information_side : List BlockDict := []
  answer_side : List BlockDict := []
  status : Option String := none
  created_date : Option String := none
  last_studied : Option String := none
  deriving DecidableEq, Repr

/-- `FlashCard.to_dict`. -/
def FlashCard.to_dict (c : FlashCard) : CardDict :=
  { card_id := some c.card_id,
    information_side := c.information_side.map Block.to_dict,
    answer_side := c.answer_side.map Block.to_dict,
    status := some c.status,
    created_date := some c.created_date,
    last_studied := c.last_studied }

/-- The deserialisation loops `for block_data in ...: append(...)`: build each
element in order, letting the first exception escape. -/
def buildList {ε α β : Type} (f : α → Except ε β) : List α → Except ε (List β)
  | [] => .ok []
  | a :: l => do
    let b ← f a
    let bs ← buildList f l
    return b :: bs

/-- `FlashCard.from_dict`: rebuild each side with the block factory (an
unknown block type escapes as an exception), then restore the scalar fields
with their `get` defaults. -/
def FlashCard.from_dict (freshId now : String) (d : CardDict) : Except String FlashCard := do
  let info ← buildList (create_block_from_dict freshId now) d.information_side
  let ans ← buildList (create_block_from_dict freshId now) d.answer_side
  return { card_id := d.card_id.getD freshId,
           information_side := info,
           answer_side := ans,
           status := d.status.getD "Unknown",
           created_date := d.created_date.getD now,
           last_studied := d.last_studied }

/-! ## `models/flashcard.py`: `FlashCardSet` -/

structure FlashCardSet where
  name : String
  description : String
  icon_set : String
  tags : List String
  difficulty_level : Int
  created_date : String
  last_accessed : Option String
  cards : List FlashCard
  deriving DecidableEq, Repr

/-- `FlashCardSet.__init__`. -/
def FlashCardSet.new (name description now : String) : FlashCardSet :=
  { name := name, description := description, icon_set := "default", tags := [],
    difficulty_level := 1, created_date := now, last_accessed := none, cards := [] }

def FlashCardSet.card_count (s : FlashCardSet) : Nat := s.cards.length

/-- `FlashCardSet.move_card`. -/
def FlashCardSet.move_card (s : FlashCardSet) (from_index to_index : Int) :
    Except String FlashCardSet :=
  match pyListMove s.cards from_index to_index with
  | some l => .ok { s with cards := l }
  | none => .error "Card index out of range"

structure SetDict where
  name : Option String := none
  description : Option String := none
  icon_set : Option String := none
  tags : Option (List String) := none
  difficulty_level : Option Int := none
  created_date : Option String := none
  last_accessed : Option String := none
  last_modified : Option String := none
  card_count : Option Int := none
  deriving DecidableEq, Repr

structure CardsDict where
  cards : List CardDict := []
  deriving DecidableEq, Repr

/-- `FlashCardSet.to_dict`. -/
def FlashCardSet.to_dict (s : FlashCardSet) : SetDict :=
  { name := some s.name, description := some s.description, icon_set := some s.icon_set,
    tags := some s.tags, difficulty_level := some s.difficulty_level,
    created_date := some s.created_date, last_accessed := s.last_accessed,
    card_count := some (s.cards.length : Int) }

/-- `FlashCardSet.cards_to_dict`. -/
def FlashCardSet.cards_to_dict (s : FlashCardSet) : CardsDict :=
  { cards := s.cards.map FlashCard.to_dict }

/-- `FlashCardSet.from_dict`.  `set_data["name"]` is a direct indexing, so a
missing name escapes as a `KeyError`; a present `cards_data` dictionary is
truthy and its cards are rebuilt one by one, exceptions escaping. -/
def FlashCardSet.from_dict (freshId now : String) (set_data : SetDict)
    (cards_data : Option CardsDict) : Except String FlashCardSet :=
  match set_data.name with
  | none => .error "KeyError: name"
  | some nm => do
    let cards ← match cards_data with
      | some cd => buildList (FlashCard.from_dict freshId now) cd.cards
      | none => pure []
    return { name := nm,
             description := set_data.description.getD "",
             icon_set := set_data.icon_set.getD "default",
             tags := set_data.tags.getD [],
             difficulty_level := set_data.difficulty_level.getD 1,
             created_date := set_data.created_date.getD now,
             last_accessed := set_data.last_accessed,
             cards := cards }

/-! Serialisation round-trips at each level. -/

theorem block_to_dict_from_dict (freshId now : String) (b : Block) :
    create_block_from_dict freshId now b.to_dict = .ok b := by
  cases b <;> rfl

theorem blocks_map_to_dict_build (freshId now : String) (l : List Block) :
    buildList (create_block_from_dict freshId now) (l.map Block.to_dict) = .ok l := by
  induction l with
  | nil => rfl
  | cons b l ih =>
    simp [buildList, block_to_dict_from_dict, ih, Except.bind]
    rfl

theorem card_to_dict_from_dict (freshId now : String) (c : FlashCard) :
    FlashCard.from_dict freshId now c.to_dict = .ok c := by
  simp [FlashCard.from_dict, FlashCard.to_dict, blocks_map_to_dict_build, Except.bind]
  rfl

theorem set_to_dict_from_dict (freshId now : String) (s : FlashCardSet) :
    FlashCardSet.from_dict freshId now s.to_dict (some s.cards_to_dict) = .ok s := by
  have hcards : buildList (FlashCard.from_dict freshId now)
      (s.cards.map FlashCard.to_dict) = .ok s.cards := by
    induction s.cards with
    | nil => rfl
    | cons c l ih =>
      simp [buildList, card_to_dict_from_dict, ih, Except.bind]
      rfl
  simp [FlashCardSet.from_dict, FlashCardSet.to_dict, FlashCardSet.cards_to_dict, hcards,
    Except.bind]

/-! ## Association-list file system

Directories keyed by name (the `sets/` tree, the `icons/` tree, an in-memory
cache) are association lists.  Writing a directory replaces any directory of
the same name; removing is `shutil.rmtree` (a no-op here when absent, the
sources always guard it with `exists()`). -/

def alookup {α : Type} : List (String × α) → String → Option α
  | [], _ => none
  | (k2, v) :: rest, k => if k2 = k then some v else alookup rest k

def aremove {α : Type} (l : List (String × α)) (k : String) : List (String × α) :=
  l.filter fun p => p.1 ≠ k

def aset {α : Type} (l : List (String × α)) (k : String) (v : α) : List (String × α) :=
  (k, v) :: aremove l k

theorem alookup_aset {α : Type} (l : List (String × α)) (k : String) (v : α) :
    alookup (aset l k v) k = some v := by
  simp [aset, alookup]

theorem alookup_aremove_ne {α : Type} (l : List (String × α)) (k k2 : String)
    (h : k2 ≠ k) : alookup (aremove l k) k2 = alookup l k2 := by
  induction l with
  | nil => rfl
  | cons p rest ih =>
    by_cases hp : p.1 = k
    · have : alookup rest k2 = alookup (p :: rest) k2 := by
        simp [alookup, show p.1 ≠ k2 from fun hc => h (hc ▸ hp ▸ rfl)]
      simp [aremove, List.filter, hp] at *
      simpa [aremove] using ih.trans this
    · simp only [aremove, List.filter] at *
      simp only [show (decide (p.1 ≠ k)) = true by simpa using hp, alookup]
      by_cases hk2 : p.1 = k2
      · simp [alookup, hk2]
      · simp [alookup, hk2]
        simpa [aremove] using ih

theorem alookup_aset_ne {α : Type} (l : List (String × α)) (k k2 : String) (v : α)
    (h : k2 ≠ k) : alookup (aset l k v) k2 = alookup l k2 := by
  simp only [aset, alookup, show k ≠ k2 from fun hc => h hc.symm, if_false]
  exact alookup_aremove_ne l k k2 h

/-! ## `vault/icon_manager.py`: icon-set validation and icon merging

An icon-set directory is the list of file names it contains.  The five
required sizes are `IconManager.icon_sizes`. -/

def icon_sizes : List Nat := [256, 128, 64, 32, 16]

/-- `IconManager.validate_icon_set` for a directory that exists: every one of
the five required `{size}.png` files must be present. -/
def validate_icon_set (files : List String) : Bool :=
  icon_sizes.all fun size => (Nat.repr size ++ ".png") ∈ files

/-- The icon branch of merge-mode `VaultManager.import_vault`
(lines 509-518): every bundled icon-set directory replaces a same-named
existing one unconditionally. -/
def mergeImportIcons (icons : List (String × List String)) :
    List (String × List String) → List (String × List String)
  | [] => icons
  | (name, files) :: rest => mergeImportIcons (aset icons name files) rest

/-- The icon branch of `VaultManager.import_set` (lines 403-421): a bundled
icon set replaces a same-named existing one only when the existing one fails
validation; otherwise the existing one is kept. -/
def importSetIcons (icons : List (String × List String)) :
    List (String × List String) → List (String × List String)
  | [] => icons
  | (name, files) :: rest =>
    let icons2 :=
      match alookup icons name with
      | some existing =>
        if !validate_icon_set existing then aset icons name files else icons
      | none => aset icons name files
    importSetIcons icons2 rest

/-! ## Auto-rename candidates -/

/-- The conflict candidate `f"{name} {counter}"`. -/
def suffixedName (name : String) (k : Nat) : String := name ++ " " ++ Nat.repr k

/-- The auto-rename / suggestion loop: counter starts at 2 and increments
while the candidate is taken. -/
def autoRenameName (name : String) (taken : List String) : String :=
  suffixedName name (findFreeIdx (suffixedName name) taken 2)

theorem suffixedName_injective (name : String) :
    Function.Injective (suffixedName name) := by
  intro a b h
  apply repr_injective
  apply String.ext
  have hd := congrArg String.data h
  simp only [suffixedName, String.data_append] at hd
  exact List.append_cancel_left hd

theorem mediaCandidate_injective (safeName : String) :
    Function.Injective (mediaCandidate safeName) := by
  intro a b h
  apply repr_injective
  apply String.ext
  have hd := congrArg String.data h
  simp only [mediaCandidate, String.data_append] at hd
  exact List.append_cancel_left (List.append_cancel_right hd)

/-! ## `vault/vault_manager.py`: vault state, load and save

A set directory holds its two JSON files; each file can be absent, fail to
parse (`json.JSONDecodeError`), fail to read at the OS level, or parse to a
dictionary.  The media subdirectories of `save_set` carry no information used
by the claims and are not tracked. -/

inductive FileRead (α : Type) where
  | absent
  | badJson
  | readFails
  | ok (val : α)
  deriving DecidableEq, Repr

structure SetDirFiles where
  set_json : FileRead SetDict
  cards_json : FileRead CardsDict
  deriving DecidableEq, Repr

structure VMState where
  sets_cache : List (String × FlashCardSet)
  sets_disk : List (String × SetDirFiles)
  deriving DecidableEq, Repr

/-- `VaultManager.get_available_sets`: the names of the set directories whose
`set.json` exists.  (The source returns them sorted; the verified properties
only use membership, so the ordering is not modelled.) -/
def get_available_sets (disk : List (String × SetDirFiles)) : List String :=
  (disk.filter fun p => match p.2.set_json with | .absent => false | _ => true).map Prod.fst

/-- The tail of `VaultManager.load_set` once both files are read: build the
set (any exception inside `FlashCardSet.from_dict` reaches the generic
`except Exception` and becomes an `IOError`), stamp `last_accessed`, cache. -/
def load_set_finish (st : VMState) (set_name freshId now : String) (sd : SetDict)
    (cards_data : Option CardsDict) : Except PyErr FlashCardSet × VMState :=
  match FlashCardSet.from_dict freshId now sd cards_data with
  | .error _ => (.error (.ioError ("Error loading set " ++ quoted set_name)), st)
  | .ok fs =>
    let fs2 := { fs with last_accessed := some now }
    (.ok fs2, { st with sets_cache := aset st.sets_cache set_name fs2 })

/-- `VaultManager.load_set`. -/
def load_set (st : VMState) (set_name freshId now : String) :
    Except PyErr FlashCardSet × VMState :=
  match alookup st.sets_cache set_name with
  | some s => (.ok s, st)
  | none =>
    match alookup st.sets_disk set_name with
    | none => (.error (.fileNotFoundError ("Set " ++ quoted set_name ++ " not found")), st)
    | some dir =>
      match dir.set_json with
      | .absent => (.error (.fileNotFoundError ("Set " ++ quoted set_name ++ " not found")), st)
      | .badJson => (.error (.valueError ("Invalid set data for " ++ quoted set_name)), st)
      | .readFails => (.error (.ioError ("Error loading set " ++ quoted set_name)), st)
      | .ok sd =>
        match dir.cards_json with
        | .badJson => (.error (.valueError ("Invalid set data for " ++ quoted set_name)), st)
        | .readFails => (.error (.ioError ("Error loading set " ++ quoted set_name)), st)
        | .absent => load_set_finish st set_name freshId now sd none
        | .ok cd => load_set_finish st set_name freshId now sd (some cd)

/-- `VaultManager.save_set` (the success path; the claims that use it assume
the two writes succeed). -/
def save_set (st : VMState) (s : FlashCardSet) : VMState :=
  { sets_cache := aset st.sets_cache s.name s,
    sets_disk := aset st.sets_disk s.name
      { set_json := .ok s.to_dict, cards_json := .ok s.cards_to_dict } }

/-- Python `str.strip()` with no argument: strip all whitespace. -/
def pyStripWS (s : String) : String := String.mk (pyStrip (fun c => c.isWhitespace) s.data)

/-- `VaultManager.validate_set_name`. -/
def validate_set_name (disk : List (String × SetDirFiles)) (name : String) :
    Bool × String :=
  if name = "" || (pyStripWS name).length = 0 then
    (false, "Set name cannot be empty")
  else if 128 < name.length then
    (false, "Set name cannot exceed 128 characters")
  else if name.data.any isIllegalFsChar then
    (false, "Set name contains invalid characters: <>:\"/\\|?*")
  else if name ∈ get_available_sets disk then
    (false, "Set name already exists")
  else (true, "")

/-! ## `VaultManager.import_set`: the exception protocol

The archive is abstracted to the facts the control flow branches on.  Inside
the `try` block the code raises `ValueError` for a missing `set.json` and for
a name conflict; `zipfile.BadZipFile` and `json.JSONDecodeError` come from the
libraries; `shutil` failures are `OSError`.  The two `except` clauses decide
what the caller sees: `except zipfile.BadZipFile` re-raises `ValueError`, and
the catch-all `except Exception` wraps everything else - including the
deliberately raised `ValueError`s - in `IOError`. -/

inductive PyExc where
  | badZipFile
  | valueError (msg : String)
  | jsonDecodeError
  | osError (msg : String)
  deriving DecidableEq, Repr

def pyExcMessage : PyExc → String
  | .badZipFile => "File is not a zip file"
  | .valueError m => m
  | .jsonDecodeError => "Expecting value"
  | .osError m => m

structure SetArchive where
  zipValid : Bool
  hasSetJson : Bool
  metaParses : Bool
  metaName : Option String
  copyFails : Bool
  deriving DecidableEq, Repr

/-- The body of the `try` block of `import_set`, as the exception it raises or
the name it imports under.  `existing` is `get_available_sets()`. -/
def import_set_try (a : SetArchive) (existing : List String) (new_name : Option String) :
    Except PyExc String :=
  if !a.zipValid then .error .badZipFile
  else if !a.hasSetJson then .error (.valueError "Invalid set archive: no set.json found")
  else if !a.metaParses then .error .jsonDecodeError
  else
    let original_name := a.metaName.getD "Unknown"
    let autoSuggest := match new_name with
      | none => true
      | some n => n = ""
    let import_name := match new_name with
      | some n => if n ≠ "" then n else original_name
      | none => original_name
    if import_name ∈ existing then
      if autoSuggest then
        .error (.valueError ("Name conflict: Set " ++ quoted import_name ++
          " already exists. Suggested name: " ++ quoted (autoRenameName original_name existing)))
      else
        .error (.valueError ("Set " ++ quoted import_name ++ " already exists"))
    else if a.copyFails then .error (.osError "copy failed")
    else .ok import_name

/-- `VaultManager.import_set`: the `try` body filtered through the two
`except` clauses. -/
def import_set (a : SetArchive) (existing : List String) (new_name : Option String) :
    Except PyErr String :=
  match import_set_try a existing new_name with
  | .ok n => .ok n
  | .error .badZipFile => .error (.valueError "Invalid ZIP file")
  | .error e => .error (.ioError ("Error importing set: " ++ pyExcMessage e))

/-! ## Merge-mode `VaultManager.import_vault`

The conflict resolver is the `SetConflictDialog` when PyQt is available
(modelled as a decision function, one decision per colliding name) and the
deterministic auto-rename fallback otherwise (`decider = none`). -/

inductive ConflictDecision where
  | importAs (new_name : String)
  | ignore
  | ignoreAll
  deriving DecidableEq, Repr

structure StagedSet where
  name : String
  content : SetDirFiles
  copyFails : Bool
  deriving DecidableEq, Repr

structure MergeResult where
  imported : List String
  ignored : List String
  renamed : List (String × String)
  deriving DecidableEq, Repr

/-- Lines 596-607: after a renamed import, rewrite `name` (and stamp
`last_modified`) inside the copied `set.json` when it exists and parses;
a parse failure is swallowed by `except (json.JSONDecodeError, KeyError)`. -/
def rewriteStagedName (content : SetDirFiles) (import_name now : String) : SetDirFiles :=
  match content.set_json with
  | .ok sd =>
    { content with
        set_json := .ok { sd with
                            name := some import_name,
                            last_modified := some now } }
  | _ => content

/-- What the conflict-resolution part of one loop iteration decides: skip the
staged set (possibly turning on ignore-all) or import it under a name. -/
inductive StepPlan where
  | skip (newIgnoreAll : Bool)
  | imp (import_name : String) (renamedFlag : Bool)
  deriving DecidableEq, Repr

/-- Resolution of one collision: the dialog decision when PyQt is available,
the deterministic auto-rename fallback otherwise. -/
def mergeDecisionPlan : Option (String → ConflictDecision) → List String →
    List (String × SetDirFiles) → StagedSet → StepPlan
  | some f, _, disk, s =>
    match f s.name with
    | .ignore => .skip false
    | .ignoreAll => .skip true
    | .importAs newName =>
      if (validate_set_name disk newName).1 then .imp newName true
      else .skip false
  | none, existing, _, s => .imp (autoRenameName s.name existing) true

def mergeStepPlan (decider : Option (String → ConflictDecision))
    (existing : List String) (disk : List (String × SetDirFiles)) (s : StagedSet)
    (ignoreAll : Bool) : StepPlan :=
  if s.name ∈ existing then
    if ignoreAll then .skip true
    else mergeDecisionPlan decider existing disk s
  else .imp s.name false

/-- The per-set loop of merge-mode `import_vault` (lines 534-615).  The body
of each iteration is guarded by `try ... except Exception`, so a failing copy
adds the original name to the ignored list and processing continues. -/
def mergeSetsLoop (decider : Option (String → ConflictDecision)) (now : String) :
    List StagedSet → List String → List (String × SetDirFiles) → Bool →
    MergeResult × List (String × SetDirFiles)
  | [], _, disk, _ => ({ imported := [], ignored := [], renamed := [] }, disk)
  | s :: rest, existing, disk, ignoreAll =>
    match mergeStepPlan decider existing disk s ignoreAll with
    | .skip newFlag =>
      let rec2 := mergeSetsLoop decider now rest existing disk newFlag
      ({ rec2.1 with ignored := s.name :: rec2.1.ignored }, rec2.2)
    | .imp import_name renamedFlag =>
      let disk1 := aremove disk import_name
      if s.copyFails then
        let rec2 := mergeSetsLoop decider now rest existing disk1 ignoreAll
        ({ rec2.1 with ignored := s.name :: rec2.1.ignored }, rec2.2)
      else
        let content2 :=
          if import_name ≠ s.name then rewriteStagedName s.content import_name now
          else s.content
        let rec2 := mergeSetsLoop decider now rest (import_name :: existing)
          (aset disk1 import_name content2) ignoreAll
        ({ rec2.1 with
             imported := import_name :: rec2.1.imported,
             renamed := if renamedFlag then (s.name, import_name) :: rec2.1.renamed
               else rec2.1.renamed }, rec2.2)

/-- Merge-mode `import_vault`: icons are merged first (always overwriting),
then the staged sets are processed with conflict resolution. -/
def import_vault_merge (disk : List (String × SetDirFiles))
    (icons : List (String × List String)) (stagedIcons : List (String × List String))
    (staged : List StagedSet) (decider : Option (String → ConflictDecision))
    (now : String) :
    MergeResult × List (String × SetDirFiles) × List (String × List String) :=
  let icons2 := mergeImportIcons icons stagedIcons
  let rec2 := mergeSetsLoop decider now staged (get_available_sets disk) disk false
  (rec2.1, rec2.2, icons2)

/-! ## Helper lemmas -/

@[simp] theorem exceptBind_ok {ε α β : Type} (a : α) (k : α → Except ε β) :
    (Except.ok a >>= k) = k a := rfl

@[simp] theorem exceptBind_error {ε α β : Type} (e : ε) (k : α → Except ε β) :
    ((Except.error e : Except ε α) >>= k) = .error e := rfl

@[simp] theorem exceptMap_ok {ε α β : Type} (f : α → β) (a : α) :
    (f <$> (Except.ok a : Except ε α)) = .ok (f a) := rfl

@[simp] theorem exceptMap_error {ε α β : Type} (f : α → β) (e : ε) :
    (f <$> (Except.error e : Except ε α)) = (.error e : Except ε β) := rfl

theorem buildList_ok_length {ε α β : Type} (f : α → Except ε β) :
    ∀ (l : List α) (l2 : List β), buildList f l = .ok l2 → l2.length = l.length := by
  intro l
  induction l with
  | nil =>
    intro l2 h
    simp only [buildList, Except.ok.injEq] at h
    simp [← h]
  | cons a l ih =>
    intro l2 h
    simp only [buildList] at h
    cases hfa : f a with
    | error e => rw [hfa] at h; simp at h
    | ok b =>
      rw [hfa] at h
      simp only [exceptBind_ok] at h
      cases hbl : buildList f l with
      | error e => rw [hbl] at h; simp at h
      | ok bs =>
        rw [hbl] at h
        simp only [exceptBind_ok, pure, Except.pure, Except.ok.injEq] at h
        subst h
        simp [ih bs hbl]

theorem pyListMove_facts {α : Type} (l : List α) (i j : Int) (l2 : List α)
    (h : pyListMove l i j = some l2) :
    l2.Perm l ∧ l2.length = l.length ∧ l2[j.toNat]? = l[i.toNat]? := by
  unfold pyListMove at h
  split at h
  case isFalse => cases h
  case isTrue hcond =>
    have hf : i.toNat < l.length := by omega
    have hn1 : 1 ≤ l.length := by omega
    have hjle : j.toNat ≤ (l.eraseIdx i.toNat).length := by
      rw [List.length_eraseIdx_of_lt hf]; omega
    simp only [Option.some.injEq] at h
    subst h
    have hperm1 := List.perm_insertIdx (l.get ⟨i.toNat, hf⟩) (l.eraseIdx i.toNat) hjle
    have hsplit : l = l.take i.toNat ++ l[i.toNat] :: l.drop (i.toNat + 1) := by
      conv_lhs => rw [← List.take_append_drop i.toNat l]
      rw [List.drop_eq_getElem_cons hf]
    have hperm2 : l.Perm (l[i.toNat] :: l.eraseIdx i.toNat) := by
      rw [List.eraseIdx_eq_take_drop_succ]
      conv_lhs => rw [hsplit]
      exact List.perm_middle
    have hget : l.get ⟨i.toNat, hf⟩ = l[i.toNat] := rfl
    have hlen2 : ((l.eraseIdx i.toNat).insertIdx j.toNat (l.get ⟨i.toNat, hf⟩)).length =
        l.length := by
      rw [List.length_insertIdx j.toNat _ hjle, List.length_eraseIdx_of_lt hf]
      omega
    refine ⟨?_, hlen2, ?_⟩
    · rw [hget] at hperm1
      exact hperm1.trans hperm2.symm
    · have hjlt : j.toNat <
          ((l.eraseIdx i.toNat).insertIdx j.toNat (l.get ⟨i.toNat, hf⟩)).length := by
        rw [hlen2]; omega
      rw [List.getElem?_eq_getElem hjlt, List.getElem?_eq_getElem hf]
      rw [List.getElem_insertIdx_self _ _ _ hjle]
      exact congrArg some hget

theorem pyListMove_invalid {α : Type} (l : List α) (i j : Int)
    (h : ¬ (0 ≤ i ∧ i < (l.length : Int) ∧ 0 ≤ j ∧ j < (l.length : Int))) :
    pyListMove l i j = none := by
  rw [pyListMove, dif_neg h]

theorem pyListMove_valid {α : Type} (l : List α) (i j : Int)
    (h : 0 ≤ i ∧ i < (l.length : Int) ∧ 0 ≤ j ∧ j < (l.length : Int)) :
    ∃ l2, pyListMove l i j = some l2 := by
  rw [pyListMove, dif_pos h]
  exact ⟨_, rfl⟩

/-! ## Claim C10: `FlashCardSet.move_card` -/

/-- C10: for indices within `0..card_count-1`, `move_card` permutes the card
sequence (same length, same multiset of cards and of card ids) and places the
card previously at `from_index` at `to_index`; for any index outside that
range it raises `IndexError` and changes nothing. -/
theorem c10_move_card (s : FlashCardSet) (from_index to_index : Int) :
    (0 ≤ from_index ∧ from_index < (s.cards.length : Int) ∧ 0 ≤ to_index ∧
        to_index < (s.cards.length : Int) →
      ∃ l, s.move_card from_index to_index = .ok { s with cards := l } ∧
        l.Perm s.cards ∧ l.length = s.cards.length ∧
        (l.map FlashCard.card_id).Perm (s.cards.map FlashCard.card_id) ∧
        l[to_index.toNat]? = s.cards[from_index.toNat]?) ∧
    (¬ (0 ≤ from_index ∧ from_index < (s.cards.length : Int) ∧ 0 ≤ to_index ∧
        to_index < (s.cards.length : Int)) →
      s.move_card from_index to_index = .error "Card index out of range") := by
  constructor
  · intro h
    obtain ⟨l2, hl2⟩ := pyListMove_valid s.cards from_index to_index h
    obtain ⟨hperm, hlen, hget⟩ := pyListMove_facts s.cards from_index to_index l2 hl2
    refine ⟨l2, ?_, hperm, hlen, hperm.map FlashCard.card_id, hget⟩
    simp [FlashCardSet.move_card, hl2]
  · intro h
    simp [FlashCardSet.move_card, pyListMove_invalid s.cards from_index to_index h]

/-- A concrete three-card set. -/
def c10set : FlashCardSet :=
  { name := "S", description := "", icon_set := "default", tags := [],
    difficulty_level := 1, created_date := "t", last_accessed := none,
    cards := [FlashCard.new "a" "t", FlashCard.new "b" "t", FlashCard.new "c" "t"] }

/-- C10 witness: moving the first card of a three-card set to the back. -/
theorem c10_witness :
    ∃ l, c10set.move_card 0 2 = .ok { c10set with cards := l } ∧
      l.Perm c10set.cards ∧ l.length = c10set.cards.length ∧
      (l.map FlashCard.card_id).Perm (c10set.cards.map FlashCard.card_id) ∧
      l[(2 : Int).toNat]? = c10set.cards[(0 : Int).toNat]? :=
  (c10_move_card c10set 0 2).1 (by decide)

/-! ## Claim C9: the 10-block cap -/

/-- Cards reachable through every operation the claim lists, including
`from_dict` deserialisation. -/
inductive ReachableCard : FlashCard → Prop where
  | init (card_id now : String) : ReachableCard (FlashCard.new card_id now)
  | add {c c2 : FlashCard} (side : String) (b : Block) :
      ReachableCard c → c.add_block_to_side side b = .ok c2 → ReachableCard c2
  | remove {c c2 : FlashCard} (side : String) (i : Int) :
      ReachableCard c → c.remove_block_from_side side i = .ok c2 → ReachableCard c2
  | move {c c2 : FlashCard} (side : String) (i j : Int) :
      ReachableCard c → c.move_block side i j = .ok c2 → ReachableCard c2
  | ofDict (freshId now : String) (d : CardDict) {c : FlashCard} :
      FlashCard.from_dict freshId now d = .ok c → ReachableCard c

/-- Cards reachable through construction and the mutating card operations
only (no deserialisation). -/
inductive ReachableCardOps : FlashCard → Prop where
  | init (card_id now : String) : ReachableCardOps (FlashCard.new card_id now)
  | add {c c2 : FlashCard} (side : String) (b : Block) :
      ReachableCardOps c → c.add_block_to_side side b = .ok c2 → ReachableCardOps c2
  | remove {c c2 : FlashCard} (side : String) (i : Int) :
      ReachableCardOps c → c.remove_block_from_side side i = .ok c2 → ReachableCardOps c2
  | move {c c2 : FlashCard} (side : String) (i j : Int) :
      ReachableCardOps c → c.move_block side i j = .ok c2 → ReachableCardOps c2

theorem add_ok_cases {c c2 : FlashCard} {side : String} {b : Block}
    (h : c.add_block_to_side side b = .ok c2) :
    (c2.information_side = c.information_side ++ [b] ∧ c2.answer_side = c.answer_side ∧
      c.information_side.length < 10) ∨
    (c2.information_side = c.information_side ∧ c2.answer_side = c.answer_side ++ [b] ∧
      c.answer_side.length < 10) := by
  unfold FlashCard.add_block_to_side at h
  by_cases h1 : side = "information"
  · rw [if_pos h1] at h
    by_cases h2 : 10 ≤ c.information_side.length
    · rw [if_pos h2] at h; simp at h
    · rw [if_neg h2] at h
      simp only [Except.ok.injEq] at h
      exact Or.inl ⟨by rw [← h], by rw [← h], by omega⟩
  · rw [if_neg h1] at h
    by_cases h3 : side = "answer"
    · rw [if_pos h3] at h
      by_cases h4 : 10 ≤ c.answer_side.length
      · rw [if_pos h4] at h; simp at h
      · rw [if_neg h4] at h
        simp only [Except.ok.injEq] at h
        exact Or.inr ⟨by rw [← h], by rw [← h], by omega⟩
    · rw [if_neg h3] at h; simp at h

theorem remove_ok_cases {c c2 : FlashCard} {side : String} {i : Int}
    (h : c.remove_block_from_side side i = .ok c2) :
    (c2.information_side = c.information_side.eraseIdx i.toNat ∧
      c2.answer_side = c.answer_side) ∨
    (c2.information_side = c.information_side ∧
      c2.answer_side = c.answer_side.eraseIdx i.toNat) := by
  unfold FlashCard.remove_block_from_side at h
  by_cases h1 : side = "information"
  · rw [if_pos h1] at h
    by_cases h2 : 0 ≤ i ∧ i < (c.information_side.length : Int)
    · rw [if_pos h2] at h
      simp only [Except.ok.injEq] at h
      exact Or.inl ⟨by rw [← h], by rw [← h]⟩
    · rw [if_neg h2] at h; simp at h
  · rw [if_neg h1] at h
    by_cases h3 : side = "answer"
    · rw [if_pos h3] at h
      by_cases h4 : 0 ≤ i ∧ i < (c.answer_side.length : Int)
      · rw [if_pos h4] at h
        simp only [Except.ok.injEq] at h
        exact Or.inr ⟨by rw [← h], by rw [← h]⟩
      · rw [if_neg h4] at h; simp at h
    · rw [if_neg h3] at h; simp at h

theorem move_ok_lengths {c c2 : FlashCard} {side : String} {i j : Int}
    (h : c.move_block side i j = .ok c2) :
    c2.information_side.length = c.information_side.length ∧
    c2.answer_side.length = c.answer_side.length := by
  unfold FlashCard.move_block at h
  by_cases h1 : side = "information"
  · rw [if_pos h1] at h
    cases hp : pyListMove c.information_side i j with
    | none => rw [hp] at h; simp at h
    | some l2 =>
      rw [hp] at h
      simp only [Except.ok.injEq] at h
      rw [← h]
      exact ⟨(pyListMove_facts _ _ _ _ hp).2.1, rfl⟩
  · rw [if_neg h1] at h
    by_cases h3 : side = "answer"
    · rw [if_pos h3] at h
      cases hp : pyListMove c.answer_side i j with
      | none => rw [hp] at h; simp at h
      | some l2 =>
        rw [hp] at h
        simp only [Except.ok.injEq] at h
        rw [← h]
        exact ⟨rfl, (pyListMove_facts _ _ _ _ hp).2.1⟩
    · rw [if_neg h3] at h; simp at h

theorem from_dict_side_lengths {freshId now : String} {d : CardDict} {c : FlashCard}
    (h : FlashCard.from_dict freshId now d = .ok c) :
    c.information_side.length = d.information_side.length ∧
    c.answer_side.length = d.answer_side.length := by
  unfold FlashCard.from_dict at h
  cases h1 : buildList (create_block_from_dict freshId now) d.information_side with
  | error e => rw [h1] at h; simp at h
  | ok info =>
    rw [h1] at h
    simp only [exceptBind_ok] at h
    cases h2 : buildList (create_block_from_dict freshId now) d.answer_side with
    | error e => rw [h2] at h; simp at h
    | ok ans =>
      rw [h2] at h
      simp only [exceptBind_ok, exceptMap_ok, pure, Except.pure, Except.ok.injEq] at h
      subst h
      exact ⟨buildList_ok_length _ _ _ h1, buildList_ok_length _ _ _ h2⟩

/-- A serialised card carrying eleven text blocks on the information side. -/
def c9dict : CardDict :=
  { information_side := List.replicate 11 { block_type := some "text" } }

/-- The card `from_dict` builds from `c9dict`. -/
def c9card : FlashCard :=
  { card_id := "f", information_side := List.replicate 11 (.text "f" "" 12 "left" "n"),
    answer_side := [], status := "Unknown", created_date := "n", last_studied := none }

/-- C9 counterexample: `from_dict` enforces no cap, so a serialised card with
eleven blocks on a side deserialises to a reachable card with eleven blocks,
refuting the claimed invariant. -/
theorem c9_counterexample :
    ¬ ((∀ c : FlashCard, ReachableCard c →
          c.information_side.length ≤ 10 ∧ c.answer_side.length ≤ 10) ∧
       (∀ (c : FlashCard) (b : Block), 10 ≤ c.information_side.length →
          c.add_block_to_side "information" b = .error maxBlocksMsg)) := by
  intro hclaim
  have hok : FlashCard.from_dict "f" "n" c9dict = .ok c9card := by rfl
  have hcap := (hclaim.1 c9card (ReachableCard.ofDict "f" "n" c9dict hok)).1
  simp [c9card] at hcap

/-- C9 amended: the 10-block cap is an invariant of construction,
`add_block_to_side`, `remove_block_from_side` and `move_block`
(with `add_block_to_side` raising `ValueError` on a full side and changing
nothing), but `from_dict` does not enforce it: a deserialised card has
exactly as many blocks per side as its dictionary. -/
theorem c9_cap_invariant :
    (∀ c : FlashCard, ReachableCardOps c →
        c.information_side.length ≤ 10 ∧ c.answer_side.length ≤ 10) ∧
    (∀ (c : FlashCard) (b : Block), 10 ≤ c.information_side.length →
        c.add_block_to_side "information" b = .error maxBlocksMsg) ∧
    (∀ (c : FlashCard) (b : Block), 10 ≤ c.answer_side.length →
        c.add_block_to_side "answer" b = .error maxBlocksMsg) ∧
    (∀ (freshId now : String) (d : CardDict) (c : FlashCard),
        FlashCard.from_dict freshId now d = .ok c →
        c.information_side.length = d.information_side.length ∧
        c.answer_side.length = d.answer_side.length) := by
  refine ⟨?_, ?_, ?_, ?_⟩
  · intro c h
    induction h with
    | init card_id now => simp [FlashCard.new]
    | add side b _ hok ih =>
      rcases add_ok_cases hok with ⟨e1, e2, hlt⟩ | ⟨e1, e2, hlt⟩
      · rw [e1, e2]
        refine ⟨?_, ih.2⟩
        simp only [List.length_append, List.length_singleton]
        omega
      · rw [e1, e2]
        refine ⟨ih.1, ?_⟩
        simp only [List.length_append, List.length_singleton]
        omega
    | remove side i _ hok ih =>
      rcases remove_ok_cases hok with ⟨e1, e2⟩ | ⟨e1, e2⟩
      · rw [e1, e2]
        exact ⟨le_trans (List.length_eraseIdx_le _ _) ih.1, ih.2⟩
      · rw [e1, e2]
        exact ⟨ih.1, le_trans (List.length_eraseIdx_le _ _) ih.2⟩
    | move side i j _ hok ih =>
      have := move_ok_lengths hok
      omega
  · intro c b h
    unfold FlashCard.add_block_to_side
    rw [if_pos rfl, if_pos h]
  · intro c b h
    unfold FlashCard.add_block_to_side
    rw [if_neg (by decide), if_pos rfl, if_pos h]
  · intro freshId now d c h
    exact from_dict_side_lengths h

/-- A card whose information side is full. -/
def c9full : FlashCard :=
  { card_id := "x", information_side := List.replicate 10 (.text "i" "" 12 "left" "t"),
    answer_side := [], status := "Unknown", created_date := "t", last_studied := none }

/-- C9 witness: adding to the full information side of a concrete card is
rejected. -/
theorem c9_witness :
    10 ≤ c9full.information_side.length ∧
    c9full.add_block_to_side "information" (Block.text "y" "" 12 "left" "t") =
      .error maxBlocksMsg :=
  ⟨by decide,
    c9_cap_invariant.2.1 c9full (Block.text "y" "" 12 "left" "t") (by decide)⟩

/-! ## Claim C8: a failed load never touches the cache -/

/-- C8: whenever `load_set` raises - set not found, malformed JSON, or any
other read or rebuild failure - the whole vault state, in particular the
in-memory sets cache, is exactly as it was before the call. -/
theorem c8_load_error_preserves_cache (st : VMState) (set_name freshId now : String)
    (e : PyErr) (h : (load_set st set_name freshId now).1 = .error e) :
    (load_set st set_name freshId now).2 = st := by
  cases hc : alookup st.sets_cache set_name with
  | some s =>
    unfold load_set at h
    rw [hc] at h
    simp at h
  | none =>
    cases hd : alookup st.sets_disk set_name with
    | none =>
      unfold load_set
      simp only [hc, hd]
    | some dir =>
      cases hs : dir.set_json with
      | absent => unfold load_set; simp only [hc, hd, hs]
      | badJson => unfold load_set; simp only [hc, hd, hs]
      | readFails => unfold load_set; simp only [hc, hd, hs]
      | ok sd =>
        cases hcj : dir.cards_json with
        | badJson => unfold load_set; simp only [hc, hd, hs, hcj]
        | readFails => unfold load_set; simp only [hc, hd, hs, hcj]
        | absent =>
          cases hfd : FlashCardSet.from_dict freshId now sd none with
          | error m =>
            unfold load_set load_set_finish
            simp only [hc, hd, hs, hcj, hfd]
          | ok fs =>
            unfold load_set load_set_finish at h
            simp only [hc, hd, hs, hcj, hfd] at h
            simp at h
        | ok cd =>
          cases hfd : FlashCardSet.from_dict freshId now sd (some cd) with
          | error m =>
            unfold load_set load_set_finish
            simp only [hc, hd, hs, hcj, hfd]
          | ok fs =>
            unfold load_set load_set_finish at h
            simp only [hc, hd, hs, hcj, hfd] at h
            simp at h

/-- C8 witness: loading a missing set from an empty vault fails and leaves
the empty state untouched. -/
theorem c8_witness : (load_set ⟨[], []⟩ "A" "f" "t").2 = (⟨[], []⟩ : VMState) :=
  c8_load_error_preserves_cache ⟨[], []⟩ "A" "f" "t"
    (.fileNotFoundError ("Set " ++ quoted "A" ++ " not found")) rfl

/-! ## Claim C3: save/load round-trip -/

theorem load_after_save (st : VMState) (S : FlashCardSet) (freshId now : String) :
    (load_set { save_set st S with sets_cache := [] } S.name freshId now).1 =
      .ok { S with last_accessed := some now } := by
  unfold load_set load_set_finish save_set
  simp [alookup, alookup_aset, set_to_dict_from_dict]

/-- C3: saving a set and loading it back with the cache cleared rebuilds the
set with every metadata field and all card data intact, except that
`load_set` stamps `last_accessed` with the load time.  (The claim as frozen
also demands equality of `last_accessed`; see the counterexample.) -/
theorem c3_save_load_roundtrip (st : VMState) (S : FlashCardSet) (freshId now : String) :
    (load_set { save_set st S with sets_cache := [] } S.name freshId now).1 =
      .ok { S with last_accessed := some now } :=
  load_after_save st S freshId now

/-- A concrete set with one card and an old `last_accessed` stamp. -/
def c3set0 : FlashCardSet :=
  { name := "A", description := "d", icon_set := "default", tags := ["x"],
    difficulty_level := 2, created_date := "2020-01-01T00:00:00",
    last_accessed := some "2020-01-02T00:00:00",
    cards := [{ card_id := "c1",
                information_side := [.text "b1" "hello" 12 "left" "2020"],
                answer_side := [], status := "Known", created_date := "2020",
                last_studied := none }] }

/-- C3 counterexample: after save plus cache-cleared load, the loaded set is
not equal to the saved one - `load_set` has refreshed `last_accessed`. -/
theorem c3_counterexample :
    (load_set { save_set ⟨[], []⟩ c3set0 with sets_cache := [] } "A" "f"
        "2024-06-01T00:00:00").1 ≠ .ok c3set0 := by
  intro hcon
  have h := load_after_save ⟨[], []⟩ c3set0 "f" "2024-06-01T00:00:00"
  have h2 := h.symm.trans hcon
  injection h2 with h3
  have := congrArg FlashCardSet.last_accessed h3
  simp [c3set0] at this

/-! ## Claim C7: `safe_filename` -/

theorem head?_dropWhile_false {p : Char → Bool} {l : List Char} {c : Char}
    (h : (l.dropWhile p).head? = some c) : p c = false := by
  have hd := List.head?_dropWhile_not p l
  rw [h] at hd
  exact hd

theorem pyStrip_head? {p : Char → Bool} {l : List Char} {c : Char}
    (h : (pyStrip p l).head? = some c) : p c = false := by
  unfold pyStrip at h
  rw [List.head?_reverse] at h
  obtain ⟨t, ht⟩ := List.dropWhile_suffix (l := (l.dropWhile p).reverse) p
  have hlm : (l.dropWhile p).reverse.getLast? = some c := by
    rw [← ht, List.getLast?_append, h]
    rfl
  rw [List.getLast?_reverse] at hlm
  exact head?_dropWhile_false hlm

theorem pyStrip_getLast? {p : Char → Bool} {l : List Char} {c : Char}
    (h : (pyStrip p l).getLast? = some c) : p c = false := by
  unfold pyStrip at h
  rw [List.getLast?_reverse] at h
  exact head?_dropWhile_false h

theorem mem_pyStrip {p : Char → Bool} {l : List Char} {c : Char}
    (h : c ∈ pyStrip p l) : c ∈ l := by
  unfold pyStrip at h
  rw [List.mem_reverse] at h
  have h2 := (List.dropWhile_sublist (p := p) (l := (l.dropWhile p).reverse)).subset h
  rw [List.mem_reverse] at h2
  exact (List.dropWhile_sublist (p := p) (l := l)).subset h2

theorem mem_replaceIllegal {l : List Char} {c : Char}
    (h : c ∈ replaceIllegal l) : isIllegalFsChar c = false := by
  unfold replaceIllegal at h
  obtain ⟨a, _, ha⟩ := List.mem_map.mp h
  by_cases hi : isIllegalFsChar a
  · rw [if_pos hi] at ha
    rw [← ha]
    decide
  · rw [if_neg hi] at ha
    rw [← ha]
    simpa using hi

theorem pathSplitIdx_bounds {l : List Char} {i : Nat}
    (h : pathSplitIdx l = some i) : 0 < i ∧ i < l.length - 1 := by
  unfold pathSplitIdx at h
  cases hld : lastDotIdx l with
  | none => simp only [hld] at h; cases h
  | some j =>
    simp only [hld] at h
    by_cases hc : 0 < j ∧ j < l.length - 1
    · rw [if_pos hc] at h
      cases h
      exact hc
    · rw [if_neg hc] at h
      cases h

theorem pathExt_suffix (l : List Char) : pathExt l <:+ l := by
  unfold pathExt
  cases h : pathSplitIdx l with
  | none => exact List.nil_suffix
  | some i => exact List.drop_suffix i l

theorem mem_pathStem {l : List Char} {c : Char} (h : c ∈ pathStem l) : c ∈ l := by
  unfold pathStem at h
  cases hs : pathSplitIdx l with
  | none => rw [hs] at h; exact h
  | some i => rw [hs] at h; exact List.take_subset i l h

theorem pathExt_eq_nil_stem {l : List Char} (h : pathExt l = []) : pathStem l = l := by
  unfold pathExt at h
  unfold pathStem
  cases hs : pathSplitIdx l with
  | none => rfl
  | some i =>
    simp only [hs] at h
    have hb := pathSplitIdx_bounds hs
    have hlen : (l.drop i).length = 0 := by rw [h]; rfl
    rw [List.length_drop] at hlen
    exact (show False by omega).elim

theorem mem_pySliceTo {l : List Char} {k : Int} {c : Char}
    (h : c ∈ pySliceTo l k) : c ∈ l := by
  unfold pySliceTo at h
  by_cases hk : 0 ≤ k
  · rw [if_pos hk] at h; exact List.take_subset _ l h
  · rw [if_neg hk] at h; exact List.take_subset _ l h

theorem safe_filename_of_empty (s : String)
    (h : pyStrip isSpaceOrDot (replaceIllegal s.data) = []) :
    safe_filename s = "untitled" := by
  unfold safe_filename
  simp [h]

theorem safe_filename_of_short (s : String)
    (h1 : pyStrip isSpaceOrDot (replaceIllegal s.data) ≠ [])
    (h2 : (pyStrip isSpaceOrDot (replaceIllegal s.data)).length ≤ 255) :
    safe_filename s = String.mk (pyStrip isSpaceOrDot (replaceIllegal s.data)) := by
  simp only [safe_filename]
  rw [if_neg h1,
    if_neg (by omega : ¬ 255 < (pyStrip isSpaceOrDot (replaceIllegal s.data)).length)]

theorem safe_filename_of_long (s : String)
    (h2 : 255 < (pyStrip isSpaceOrDot (replaceIllegal s.data)).length) :
    (safe_filename s).data =
      pySliceTo (pathStem (pyStrip isSpaceOrDot (replaceIllegal s.data)))
        ((255 : Int) - (pathExt (pyStrip isSpaceOrDot (replaceIllegal s.data))).length) ++
        pathExt (pyStrip isSpaceOrDot (replaceIllegal s.data)) := by
  have h1 : pyStrip isSpaceOrDot (replaceIllegal s.data) ≠ [] := by
    intro hc
    rw [hc] at h2
    simp at h2
  simp only [safe_filename]
  rw [if_neg h1, if_pos h2]

/-- C7 counterexample: the sanitiser only strips spaces and dots, not all
whitespace: `safe_filename "\ta"` keeps its leading tab, refuting the claim
as stated (which also bounds the result in bytes). -/
theorem c7_counterexample :
    ¬ (∀ s : String,
        (∀ c ∈ (safe_filename s).data, isIllegalFsChar c = false) ∧
        safe_filename s ≠ "" ∧
        (∀ c, (safe_filename s).data.head? = some c →
          c.isWhitespace = false ∧ c ≠ '.') ∧
        (∀ c, (safe_filename s).data.getLast? = some c →
          c.isWhitespace = false ∧ c ≠ '.') ∧
        (safe_filename s).utf8ByteSize ≤ 255) := by
  intro h
  have htab := (h "\ta").2.2.1 '\t' (by decide)
  exact absurd htab.1 (by decide)

/-- C7 amended: `safe_filename` yields a non-empty name free of the
characters `<>:"/\|?*` (each is replaced by an underscore); leading and
trailing spaces and dots - the space character only, not all whitespace -
are trimmed (visible whenever no truncation happens), `"untitled"` is
substituted for an empty result, and whenever the extension of the trimmed
name is at most 255 characters the result is truncated to at most 255
characters (not bytes) while keeping that extension as its suffix. -/
theorem c7_safe_filename_props (s : String) :
    (∀ c ∈ (safe_filename s).data, isIllegalFsChar c = false) ∧
    safe_filename s ≠ "" ∧
    ((pyStrip isSpaceOrDot (replaceIllegal s.data)).length ≤ 255 →
      (∀ c, (safe_filename s).data.head? = some c → isSpaceOrDot c = false) ∧
      (∀ c, (safe_filename s).data.getLast? = some c → isSpaceOrDot c = false)) ∧
    ((pathExt (pyStrip isSpaceOrDot (replaceIllegal s.data))).length ≤ 255 →
      (safe_filename s).data.length ≤ 255 ∧
      pathExt (pyStrip isSpaceOrDot (replaceIllegal s.data)) <:+ (safe_filename s).data) := by
  by_cases hemp : pyStrip isSpaceOrDot (replaceIllegal s.data) = []
  · rw [safe_filename_of_empty s hemp, hemp]
    refine ⟨by decide, by decide, fun _ => ⟨?_, ?_⟩, fun _ => ⟨by decide, ?_⟩⟩
    · intro c hc
      simp only [show ("untitled" : String).data.head? = some 'u' from rfl,
        Option.some.injEq] at hc
      rw [← hc]
      decide
    · intro c hc
      simp only [show ("untitled" : String).data.getLast? = some 'd' from rfl,
        Option.some.injEq] at hc
      rw [← hc]
      decide
    · show pathExt [] <:+ _
      show ([] : List Char) <:+ _
      exact List.nil_suffix
  · by_cases hlen : 255 < (pyStrip isSpaceOrDot (replaceIllegal s.data)).length
    · have hdata := safe_filename_of_long s hlen
      refine ⟨?_, ?_, fun hle => absurd hle (by omega), fun hext => ⟨?_, ?_⟩⟩
      · intro c hc
        rw [hdata] at hc
        rcases List.mem_append.mp hc with hm | hm
        · exact mem_replaceIllegal (mem_pyStrip (mem_pathStem (mem_pySliceTo hm)))
        · exact mem_replaceIllegal (mem_pyStrip ((pathExt_suffix _).subset hm))
      · intro hcon
        have hd : (safe_filename s).data = [] := by rw [hcon]
        rw [hdata] at hd
        rcases List.append_eq_nil.mp hd with ⟨hsl, hex⟩
        have hstem := pathExt_eq_nil_stem hex
        rw [hex, hstem] at hsl
        unfold pySliceTo at hsl
        rw [if_pos (by simp : (0 : Int) ≤ 255 - ([] : List Char).length)] at hsl
        rcases List.take_eq_nil_iff.mp hsl with h0 | h0
        · simp at h0
        · exact hemp h0
      · rw [hdata]
        rw [List.length_append]
        set ext := pathExt (pyStrip isSpaceOrDot (replaceIllegal s.data)) with hext2
        unfold pySliceTo
        rw [if_pos (by omega : (0 : Int) ≤ 255 - (ext.length : Int))]
        rw [List.length_take]
        omega
      · rw [hdata]
        exact List.suffix_append _ _
    · have heq := safe_filename_of_short s hemp (by omega)
      have hdata : (safe_filename s).data = pyStrip isSpaceOrDot (replaceIllegal s.data) := by
        rw [heq]
      refine ⟨?_, ?_, fun _ => ⟨?_, ?_⟩, fun _ => ⟨?_, ?_⟩⟩
      · intro c hc
        rw [hdata] at hc
        exact mem_replaceIllegal (mem_pyStrip hc)
      · intro hcon
        have hd : (safe_filename s).data = [] := by rw [hcon]
        rw [hdata] at hd
        exact hemp hd
      · intro c hc
        rw [hdata] at hc
        exact pyStrip_head? hc
      · intro c hc
        rw [hdata] at hc
        exact pyStrip_getLast? hc
      · rw [hdata]; omega
      · rw [hdata]
        exact pathExt_suffix _

/-- C7 witness: a concrete sanitisation satisfying the amended properties. -/
theorem c7_witness :
    (∀ c, (safe_filename " na<me.png ").data.head? = some c → isSpaceOrDot c = false) ∧
    (∀ c, (safe_filename " na<me.png ").data.getLast? = some c → isSpaceOrDot c = false) :=
  (c7_safe_filename_props " na<me.png ").2.2.1 (by decide)

/-! ## Claim C6: `copy_media_file` -/

theorem resolveMediaName_spec (safeName : String) (files : List String) :
    resolveMediaName safeName files ∉ files ∧
    (safeName ∉ files → resolveMediaName safeName files = safeName) ∧
    (safeName ∈ files →
      ∃ k, 1 ≤ k ∧ resolveMediaName safeName files = mediaCandidate safeName k ∧
        mediaCandidate safeName k ∉ files ∧
        ∀ j, 1 ≤ j → j < k → mediaCandidate safeName j ∈ files) := by
  unfold resolveMediaName
  by_cases hin : safeName ∈ files
  · rw [if_pos hin]
    obtain ⟨hfree, hge, hmin⟩ := findFreeIdx_spec (mediaCandidate safeName)
      (mediaCandidate_injective safeName) files 1
    exact ⟨hfree, fun hn => absurd hin hn, fun _ => ⟨_, hge, rfl, hfree, hmin⟩⟩
  · rw [if_neg hin]
    exact ⟨hin, fun _ => rfl, fun hmem => absurd hmem hin⟩

/-- C6: for an existing source and a valid media type, `copy_media_file`
stores the file in `images/` (image) or `sounds/` (audio/video) under the
sanitised base name, disambiguated on collision by the lowest free numeric
suffix; the destination list only grows (no existing file is overwritten or
removed) and the stored relative file name is returned. -/
theorem c6_copy_media_file (dirs : MediaDirs) (sourceName media_type : String)
    (hmt : media_type = "image" ∨ media_type = "audio" ∨ media_type = "video") :
    ∃ stored dirs2,
      copy_media_file dirs sourceName true media_type false = .ok (stored, dirs2) ∧
      (media_type = "image" →
        dirs2.images = dirs.images ++ [stored] ∧ dirs2.sounds = dirs.sounds ∧
        stored ∉ dirs.images) ∧
      (media_type ≠ "image" →
        dirs2.sounds = dirs.sounds ++ [stored] ∧ dirs2.images = dirs.images ∧
        stored ∉ dirs.sounds) ∧
      (safe_filename sourceName ∉
          (if media_type = "image" then dirs.images else dirs.sounds) →
        stored = safe_filename sourceName) ∧
      (safe_filename sourceName ∈
          (if media_type = "image" then dirs.images else dirs.sounds) →
        ∃ k, 1 ≤ k ∧ stored = mediaCandidate (safe_filename sourceName) k ∧
          mediaCandidate (safe_filename sourceName) k ∉
            (if media_type = "image" then dirs.images else dirs.sounds) ∧
          ∀ j, 1 ≤ j → j < k →
            mediaCandidate (safe_filename sourceName) j ∈
              (if media_type = "image" then dirs.images else dirs.sounds)) := by
  rcases hmt with rfl | rfl | rfl
  · obtain ⟨hfree, hshort, hlong⟩ := resolveMediaName_spec (safe_filename sourceName)
      dirs.images
    refine ⟨resolveMediaName (safe_filename sourceName) dirs.images,
      { dirs with images := dirs.images ++
          [resolveMediaName (safe_filename sourceName) dirs.images] },
      rfl, ?_, ?_, ?_, ?_⟩
    · exact fun _ => ⟨rfl, rfl, hfree⟩
    · exact fun hne => absurd rfl hne
    · exact fun h => hshort h
    · exact fun h => hlong h
  · obtain ⟨hfree, hshort, hlong⟩ := resolveMediaName_spec (safe_filename sourceName)
      dirs.sounds
    refine ⟨resolveMediaName (safe_filename sourceName) dirs.sounds,
      { dirs with sounds := dirs.sounds ++
          [resolveMediaName (safe_filename sourceName) dirs.sounds] },
      rfl, ?_, ?_, ?_, ?_⟩
    · exact fun hc => absurd hc (by decide)
    · exact fun _ => ⟨rfl, rfl, hfree⟩
    · exact fun h => hshort h
    · exact fun h => hlong h
  · obtain ⟨hfree, hshort, hlong⟩ := resolveMediaName_spec (safe_filename sourceName)
      dirs.sounds
    refine ⟨resolveMediaName (safe_filename sourceName) dirs.sounds,
      { dirs with sounds := dirs.sounds ++
          [resolveMediaName (safe_filename sourceName) dirs.sounds] },
      rfl, ?_, ?_, ?_, ?_⟩
    · exact fun hc => absurd hc (by decide)
    · exact fun _ => ⟨rfl, rfl, hfree⟩
    · exact fun h => hshort h
    · exact fun h => hlong h

/-- C6 witness: copying `a.png` into a set whose `images/` already holds
`a.png` and `a_1.png`. -/
theorem c6_witness :
    ∃ stored dirs2,
      copy_media_file ⟨["a.png", "a_1.png"], []⟩ "a.png" true "image" false =
        .ok (stored, dirs2) ∧
      ("image" = "image" →
        dirs2.images = ["a.png", "a_1.png"] ++ [stored] ∧ dirs2.sounds = [] ∧
        stored ∉ ["a.png", "a_1.png"]) ∧
      ("image" ≠ "image" →
        dirs2.sounds = [] ++ [stored] ∧ dirs2.images = ["a.png", "a_1.png"] ∧
        stored ∉ ([] : List String)) ∧
      (safe_filename "a.png" ∉
          (if "image" = "image" then ["a.png", "a_1.png"] else ([] : List String)) →
        stored = safe_filename "a.png") ∧
      (safe_filename "a.png" ∈
          (if "image" = "image" then ["a.png", "a_1.png"] else ([] : List String)) →
        ∃ k, 1 ≤ k ∧ stored = mediaCandidate (safe_filename "a.png") k ∧
          mediaCandidate (safe_filename "a.png") k ∉
            (if "image" = "image" then ["a.png", "a_1.png"] else ([] : List String)) ∧
          ∀ j, 1 ≤ j → j < k →
            mediaCandidate (safe_filename "a.png") j ∈
              (if "image" = "image" then ["a.png", "a_1.png"] else ([] : List String))) :=
  c6_copy_media_file ⟨["a.png", "a_1.png"], []⟩ "a.png" "image" (Or.inl rfl)

/-! ## Claim C2: the exception types of `import_set` -/

/-- C2: the `ValueError`s that `import_set` raises for a missing `set.json`
and for a name conflict never reach the caller as `ValueError`: the catch-all
`except Exception` wraps them in `IOError`.  Only `zipfile.BadZipFile` is
translated to a `ValueError`. -/
theorem c2_import_set_exception_types :
    import_set ⟨true, false, true, none, false⟩ [] none =
      .error (.ioError "Error importing set: Invalid set archive: no set.json found") ∧
    import_set ⟨true, true, true, some "A", false⟩ ["A"] (some "A") =
      .error (.ioError ("Error importing set: Set " ++ quoted "A" ++ " already exists")) ∧
    import_set ⟨false, false, false, none, false⟩ [] none =
      .error (.valueError "Invalid ZIP file") :=
  ⟨rfl, rfl, rfl⟩

/-! ## Claim C1: icon sets during merge-mode vault import -/

theorem mergeImportIcons_frame (icons : List (String × List String))
    (bundled : List (String × List String)) (name : String)
    (h : ∀ files, (name, files) ∉ bundled) :
    alookup (mergeImportIcons icons bundled) name = alookup icons name := by
  induction bundled generalizing icons with
  | nil => rfl
  | cons p rest ih =>
    obtain ⟨n2, f2⟩ := p
    have hne : name ≠ n2 := by
      intro hc
      exact h f2 (by rw [hc]; exact List.mem_cons_self _ _)
    simp only [mergeImportIcons]
    rw [ih (aset icons n2 f2) (fun files hf => h files (List.mem_cons_of_mem _ hf))]
    exact alookup_aset_ne icons n2 name f2 hne

theorem mergeImportIcons_lookup (icons bundled : List (String × List String))
    (hnd : (bundled.map Prod.fst).Nodup) (name : String) (files : List String)
    (hmem : (name, files) ∈ bundled) :
    alookup (mergeImportIcons icons bundled) name = some files := by
  induction bundled generalizing icons with
  | nil => cases hmem
  | cons p rest ih =>
    obtain ⟨n2, f2⟩ := p
    simp only [List.map_cons, List.nodup_cons] at hnd
    simp only [mergeImportIcons]
    rcases List.mem_cons.mp hmem with heq | hmem2
    · injection heq with h1 h2
      subst h1
      subst h2
      rw [mergeImportIcons_frame (aset icons name files) rest name
        (fun fs hf => hnd.1 (List.mem_map_of_mem Prod.fst hf))]
      exact alookup_aset icons name files
    · exact ih (aset icons n2 f2) hnd.2 hmem2

theorem importSetIcons_frame (icons bundled : List (String × List String))
    (name : String) (h : ∀ files, (name, files) ∉ bundled) :
    alookup (importSetIcons icons bundled) name = alookup icons name := by
  induction bundled generalizing icons with
  | nil => rfl
  | cons p rest ih =>
    obtain ⟨n2, f2⟩ := p
    have hne : name ≠ n2 := by
      intro hc
      exact h f2 (by rw [hc]; exact List.mem_cons_self _ _)
    simp only [importSetIcons]
    have hrest : ∀ files, (name, files) ∉ rest :=
      fun files hf => h files (List.mem_cons_of_mem _ hf)
    cases hl : alookup icons n2 with
    | none =>
      rw [ih (aset icons n2 f2) hrest]
      exact alookup_aset_ne icons n2 name f2 hne
    | some ex =>
      by_cases hv : validate_icon_set ex
      · simp only [hv, Bool.not_true, Bool.false_eq_true, if_false]
        rw [ih icons hrest]
      · simp only [Bool.not_eq_true] at hv
        simp only [hv, Bool.not_false, if_true]
        rw [ih (aset icons n2 f2) hrest]
        exact alookup_aset_ne icons n2 name f2 hne

theorem importSetIcons_keeps_valid (icons bundled : List (String × List String))
    (hnd : (bundled.map Prod.fst).Nodup) (name : String) (files existing : List String)
    (hmem : (name, files) ∈ bundled) (hex : alookup icons name = some existing)
    (hval : validate_icon_set existing = true) :
    alookup (importSetIcons icons bundled) name = some existing := by
  induction bundled generalizing icons with
  | nil => cases hmem
  | cons p rest ih =>
    obtain ⟨n2, f2⟩ := p
    simp only [List.map_cons, List.nodup_cons] at hnd
    simp only [importSetIcons]
    rcases List.mem_cons.mp hmem with heq | hmem2
    · injection heq with h1 h2
      subst h1
      subst h2
      rw [hex]
      simp only [hval, Bool.not_true, Bool.false_eq_true, if_false]
      rw [importSetIcons_frame icons rest name
        (fun fs hf => hnd.1 (List.mem_map_of_mem Prod.fst hf))]
      exact hex
    · have hne : name ≠ n2 := by
        intro hc
        subst hc
        exact hnd.1 (List.mem_map_of_mem Prod.fst hmem2)
      cases hl : alookup icons n2 with
      | none =>
        exact ih (aset icons n2 f2) hnd.2 hmem2
          ((alookup_aset_ne icons n2 name f2 hne).trans hex)
      | some ex =>
        by_cases hv : validate_icon_set ex
        · simp only [hv, Bool.not_true, Bool.false_eq_true, if_false]
          exact ih icons hnd.2 hmem2 hex
        · simp only [Bool.not_eq_true] at hv
          simp only [hv, Bool.not_false, if_true]
          exact ih (aset icons n2 f2) hnd.2 hmem2
            ((alookup_aset_ne icons n2 name f2 hne).trans hex)

theorem importSetIcons_replaces_invalid (icons bundled : List (String × List String))
    (hnd : (bundled.map Prod.fst).Nodup) (name : String) (files existing : List String)
    (hmem : (name, files) ∈ bundled) (hex : alookup icons name = some existing)
    (hval : validate_icon_set existing = false) :
    alookup (importSetIcons icons bundled) name = some files := by
  induction bundled generalizing icons with
  | nil => cases hmem
  | cons p rest ih =>
    obtain ⟨n2, f2⟩ := p
    simp only [List.map_cons, List.nodup_cons] at hnd
    simp only [importSetIcons]
    rcases List.mem_cons.mp hmem with heq | hmem2
    · injection heq with h1 h2
      subst h1
      subst h2
      rw [hex]
      simp only [hval, Bool.not_false, if_true]
      rw [importSetIcons_frame (aset icons name files) rest name
        (fun fs hf => hnd.1 (List.mem_map_of_mem Prod.fst hf))]
      exact alookup_aset icons name files
    · have hne : name ≠ n2 := by
        intro hc
        subst hc
        exact hnd.1 (List.mem_map_of_mem Prod.fst hmem2)
      cases hl : alookup icons n2 with
      | none =>
        exact ih (aset icons n2 f2) hnd.2 hmem2
          ((alookup_aset_ne icons n2 name f2 hne).trans hex)
      | some ex =>
        by_cases hv : validate_icon_set ex
        · simp only [hv, Bool.not_true, Bool.false_eq_true, if_false]
          exact ih icons hnd.2 hmem2 hex
        · simp only [Bool.not_eq_true] at hv
          simp only [hv, Bool.not_false, if_true]
          exact ih (aset icons n2 f2) hnd.2 hmem2
            ((alookup_aset_ne icons n2 name f2 hne).trans hex)

/-- A complete (valid) icon-set directory with one extra file. -/
def c1valid : List String :=
  ["256.png", "128.png", "64.png", "32.png", "16.png", "extra.png"]

/-- C1 counterexample: a merge-mode vault import overwrites the existing icon
set `a` with the bundled one even though the existing one validates. -/
theorem c1_counterexample :
    validate_icon_set c1valid = true ∧
    alookup (import_vault_merge [] [("a", c1valid)] [("a", ["256.png"])] [] none
      "t").2.2 "a" = some ["256.png"] ∧
    some ["256.png"] ≠ some c1valid := by
  refine ⟨by decide, rfl, by decide⟩

/-- C1 amended: in merge-mode vault import every bundled icon set overwrites
a same-named existing icon set unconditionally (no validation is consulted),
and otherwise leaves the registry unchanged; the validation-guarded
behaviour of the claim - keep a same-named existing icon set when it
validates, replace it when it does not - is the icon branch of the
single-set import `import_set`. -/
theorem c1_icon_merge_semantics :
    (∀ (disk : List (String × SetDirFiles)) (icons stagedIcons : List (String × List String))
        (staged : List StagedSet) (decider : Option (String → ConflictDecision))
        (now : String),
        (import_vault_merge disk icons stagedIcons staged decider now).2.2 =
          mergeImportIcons icons stagedIcons) ∧
    (∀ icons bundled : List (String × List String), (bundled.map Prod.fst).Nodup →
        ∀ name files, (name, files) ∈ bundled →
          alookup (mergeImportIcons icons bundled) name = some files) ∧
    (∀ (icons bundled : List (String × List String)) (name : String),
        (∀ files, (name, files) ∉ bundled) →
        alookup (mergeImportIcons icons bundled) name = alookup icons name) ∧
    (∀ icons bundled : List (String × List String), (bundled.map Prod.fst).Nodup →
        ∀ name files existing, (name, files) ∈ bundled →
          alookup icons name = some existing → validate_icon_set existing = true →
          alookup (importSetIcons icons bundled) name = some existing) ∧
    (∀ icons bundled : List (String × List String), (bundled.map Prod.fst).Nodup →
        ∀ name files existing, (name, files) ∈ bundled →
          alookup icons name = some existing → validate_icon_set existing = false →
          alookup (importSetIcons icons bundled) name = some files) :=
  ⟨fun _ _ _ _ _ _ => rfl,
   fun icons bundled hnd name files hmem => mergeImportIcons_lookup icons bundled hnd name files hmem,
   fun icons bundled name h => mergeImportIcons_frame icons bundled name h,
   fun icons bundled hnd name files existing hmem hex hval =>
     importSetIcons_keeps_valid icons bundled hnd name files existing hmem hex hval,
   fun icons bundled hnd name files existing hmem hex hval =>
     importSetIcons_replaces_invalid icons bundled hnd name files existing hmem hex hval⟩

/-- C1 witness: concrete instances of the always-overwrite and keep-if-valid
behaviours. -/
theorem c1_witness :
    alookup (mergeImportIcons [("a", c1valid)] [("a", ["256.png"])]) "a" =
      some ["256.png"] ∧
    alookup (importSetIcons [("a", c1valid)] [("a", ["256.png"])]) "a" = some c1valid :=
  ⟨c1_icon_merge_semantics.2.1 [("a", c1valid)] [("a", ["256.png"])] (by decide) "a"
      ["256.png"] (by decide),
   c1_icon_merge_semantics.2.2.2.1 [("a", c1valid)] [("a", ["256.png"])] (by decide) "a"
      ["256.png"] c1valid (by decide) (by decide) (by decide)⟩

/-! ## Claims C4 and C5: the merge-mode set loop

Supporting facts about `get_available_sets` over the association-list
modifications, about `validate_set_name`, and about the conflict plan. -/

theorem mem_get_available_sets {disk : List (String × SetDirFiles)} {n : String} :
    n ∈ get_available_sets disk ↔
      ∃ d, (n, d) ∈ disk ∧
        (match d.set_json with | FileRead.absent => false | _ => true) = true := by
  unfold get_available_sets
  simp only [List.mem_map, List.mem_filter]
  constructor
  · rintro ⟨p, ⟨hp, hpr⟩, rfl⟩
    exact ⟨p.2, hp, hpr⟩
  · rintro ⟨d, hd, hpr⟩
    exact ⟨(n, d), ⟨hd, hpr⟩, rfl⟩

theorem mem_avail_aremove {disk : List (String × SetDirFiles)} {k n : String}
    (hne : n ≠ k) :
    n ∈ get_available_sets (aremove disk k) ↔ n ∈ get_available_sets disk := by
  simp only [mem_get_available_sets, aremove]
  constructor
  · rintro ⟨d, hd, hpr⟩
    exact ⟨d, (List.mem_filter.mp hd).1, hpr⟩
  · rintro ⟨d, hd, hpr⟩
    refine ⟨d, List.mem_filter.mpr ⟨hd, ?_⟩, hpr⟩
    simpa using hne

theorem avail_aremove_subset {disk : List (String × SetDirFiles)} {k : String} :
    ∀ m ∈ get_available_sets (aremove disk k), m ∈ get_available_sets disk := by
  intro m hm
  rw [mem_get_available_sets] at hm ⊢
  obtain ⟨d, hd, hpr⟩ := hm
  exact ⟨d, (List.mem_filter.mp hd).1, hpr⟩

theorem mem_avail_aset_ne {disk : List (String × SetDirFiles)} {k n : String}
    {v : SetDirFiles} (hne : n ≠ k) :
    n ∈ get_available_sets (aset disk k v) ↔ n ∈ get_available_sets disk := by
  constructor
  · intro h
    rw [mem_get_available_sets] at h
    obtain ⟨d, hd, hpr⟩ := h
    rcases List.mem_cons.mp hd with heq | hmem
    · injection heq with h1 _
      exact absurd h1 hne
    · exact (mem_avail_aremove hne).mp (mem_get_available_sets.mpr ⟨d, hmem, hpr⟩)
  · intro h
    have h2 := (@mem_avail_aremove disk k n hne).mpr h
    rw [mem_get_available_sets] at h2 ⊢
    obtain ⟨d, hd, hpr⟩ := h2
    exact ⟨d, List.mem_cons_of_mem _ hd, hpr⟩

theorem avail_aset_subset {disk : List (String × SetDirFiles)} {k : String}
    {v : SetDirFiles} :
    ∀ m ∈ get_available_sets (aset disk k v), m = k ∨ m ∈ get_available_sets disk := by
  intro m hm
  by_cases hmk : m = k
  · exact Or.inl hmk
  · exact Or.inr ((mem_avail_aset_ne hmk).mp hm)

theorem validate_true_not_avail {disk : List (String × SetDirFiles)} {name : String}
    (h : (validate_set_name disk name).1 = true) :
    name ∉ get_available_sets disk := by
  intro hmem
  unfold validate_set_name at h
  split_ifs at h

theorem mergeStepPlan_imp_not_avail {decider : Option (String → ConflictDecision)}
    {existing : List String} {disk : List (String × SetDirFiles)} {s : StagedSet}
    {flag : Bool} {import_name : String} {renamedFlag : Bool}
    (hsub : ∀ m ∈ get_available_sets disk, m ∈ existing)
    (h : mergeStepPlan decider existing disk s flag = .imp import_name renamedFlag) :
    import_name ∉ get_available_sets disk := by
  unfold mergeStepPlan at h
  by_cases hc : s.name ∈ existing
  · rw [if_pos hc] at h
    by_cases hf : flag = true
    · rw [if_pos hf] at h
      cases h
    · rw [if_neg hf] at h
      cases decider with
      | none =>
        unfold mergeDecisionPlan at h
        injection h with h1 _
        rw [← h1]
        obtain ⟨hfree, _, _⟩ := findFreeIdx_spec (suffixedName s.name)
          (suffixedName_injective s.name) existing 2
        intro hmem
        exact hfree (hsub _ hmem)
      | some f =>
        unfold mergeDecisionPlan at h
        cases hdec : f s.name with
        | ignore => simp only [hdec] at h; exact StepPlan.noConfusion h
        | ignoreAll => simp only [hdec] at h; exact StepPlan.noConfusion h
        | importAs nn =>
          simp only [hdec] at h
          by_cases hv : (validate_set_name disk nn).1 = true
          · rw [if_pos hv] at h
            injection h with h1 _
            rw [← h1]
            exact validate_true_not_avail hv
          · rw [if_neg hv] at h
            cases h
  · rw [if_neg hc] at h
    injection h with h1 _
    rw [← h1]
    intro hmem
    exact hc (hsub _ hmem)

theorem mergeSetsLoop_frame (decider : Option (String → ConflictDecision)) (now : String) :
    ∀ (staged : List StagedSet) (existing : List String)
      (disk : List (String × SetDirFiles)) (flag : Bool) (n : String),
      (∀ m ∈ get_available_sets disk, m ∈ existing) →
      n ∈ get_available_sets disk →
      alookup (mergeSetsLoop decider now staged existing disk flag).2 n =
        alookup disk n := by
  intro staged
  induction staged with
  | nil => intro existing disk flag n _ _; rfl
  | cons s rest ih =>
    intro existing disk flag n hsub hn
    simp only [mergeSetsLoop]
    cases hplan : mergeStepPlan decider existing disk s flag with
    | skip newFlag => exact ih existing disk newFlag n hsub hn
    | imp import_name renamedFlag =>
      have hnotavail := mergeStepPlan_imp_not_avail hsub hplan
      have hne : n ≠ import_name := fun hc => hnotavail (hc ▸ hn)
      by_cases hcf : s.copyFails = true
      · have hn2 : n ∈ get_available_sets (aremove disk import_name) :=
          (mem_avail_aremove hne).mpr hn
        have hsub2 : ∀ m ∈ get_available_sets (aremove disk import_name), m ∈ existing :=
          fun m hm => hsub m (avail_aremove_subset m hm)
        simp only [hcf, if_true]
        rw [ih existing (aremove disk import_name) flag n hsub2 hn2]
        exact alookup_aremove_ne disk import_name n hne
      · have hcf2 : s.copyFails = false := by simpa using hcf
        simp only [hcf2, Bool.false_eq_true, if_false]
        have hn2 : n ∈ get_available_sets (aset (aremove disk import_name) import_name
            (if import_name ≠ s.name then rewriteStagedName s.content import_name now
             else s.content)) :=
          (mem_avail_aset_ne hne).mpr ((mem_avail_aremove hne).mpr hn)
        have hsub2 : ∀ m ∈ get_available_sets (aset (aremove disk import_name) import_name
            (if import_name ≠ s.name then rewriteStagedName s.content import_name now
             else s.content)), m ∈ import_name :: existing := by
          intro m hm
          rcases avail_aset_subset m hm with rfl | hm2
          · exact List.mem_cons_self _ _
          · exact List.mem_cons_of_mem _ (hsub m (avail_aremove_subset m hm2))
        rw [ih (import_name :: existing) _ flag n hsub2 hn2]
        rw [alookup_aset_ne _ import_name n _ hne]
        exact alookup_aremove_ne disk import_name n hne

theorem mergeSetsLoop_ignored (f : String → ConflictDecision) (now : String) :
    ∀ (staged : List StagedSet) (existing : List String)
      (disk : List (String × SetDirFiles)) (flag : Bool) (s : StagedSet),
      s ∈ staged → s.name ∈ existing →
      (f s.name = .ignore ∨ f s.name = .ignoreAll ∨ flag = true) →
      s.name ∈ (mergeSetsLoop (some f) now staged existing disk flag).1.ignored := by
  intro staged
  induction staged with
  | nil => intro _ _ _ s hmem; cases hmem
  | cons t rest ih =>
    intro existing disk flag s hmem hcol hdec
    rcases List.mem_cons.mp hmem with rfl | hmem2
    · have hplan : ∃ nf, mergeStepPlan (some f) existing disk s flag = .skip nf := by
        unfold mergeStepPlan
        rw [if_pos hcol]
        by_cases hflag : flag = true
        · rw [if_pos hflag]
          exact ⟨true, rfl⟩
        · rw [if_neg hflag]
          unfold mergeDecisionPlan
          rcases hdec with hd | hd | hd
          · exact ⟨false, by simp only [hd]⟩
          · exact ⟨true, by simp only [hd]⟩
          · exact absurd hd hflag
      obtain ⟨nf, hplan⟩ := hplan
      simp only [mergeSetsLoop, hplan]
      exact List.mem_cons_self _ _
    · simp only [mergeSetsLoop]
      cases hplan : mergeStepPlan (some f) existing disk t flag with
      | skip newFlag =>
        have hdec2 : f s.name = .ignore ∨ f s.name = .ignoreAll ∨ newFlag = true := by
          rcases hdec with hd | hd | hd
          · exact Or.inl hd
          · exact Or.inr (Or.inl hd)
          · refine Or.inr (Or.inr ?_)
            unfold mergeStepPlan at hplan
            by_cases hcolt : t.name ∈ existing
            · rw [if_pos hcolt, if_pos hd] at hplan
              injection hplan with h1
              exact h1.symm
            · rw [if_neg hcolt] at hplan
              exact StepPlan.noConfusion hplan
        exact List.mem_cons_of_mem _ (ih existing disk newFlag s hmem2 hcol hdec2)
      | imp import_name renamedFlag =>
        by_cases hcf : t.copyFails = true
        · simp only [hcf, if_true]
          exact List.mem_cons_of_mem _
            (ih existing (aremove disk import_name) flag s hmem2 hcol hdec)
        · have hcf2 : t.copyFails = false := by simpa using hcf
          simp only [hcf2, Bool.false_eq_true, if_false]
          exact ih (import_name :: existing) _ flag s hmem2
            (List.mem_cons_of_mem _ hcol) hdec

theorem mergeSetsLoop_avail_not_imported (decider : Option (String → ConflictDecision))
    (now : String) :
    ∀ (staged : List StagedSet) (existing : List String)
      (disk : List (String × SetDirFiles)) (flag : Bool) (n : String),
      (∀ m ∈ get_available_sets disk, m ∈ existing) →
      n ∈ get_available_sets disk →
      n ∉ (mergeSetsLoop decider now staged existing disk flag).1.imported := by
  intro staged
  induction staged with
  | nil =>
    intro _ _ _ n _ _ hmem
    exact (List.not_mem_nil n) hmem
  | cons s rest ih =>
    intro existing disk flag n hsub hn hmem
    simp only [mergeSetsLoop] at hmem
    cases hplan : mergeStepPlan decider existing disk s flag with
    | skip newFlag =>
      simp only [hplan] at hmem
      exact ih existing disk newFlag n hsub hn hmem
    | imp import_name renamedFlag =>
      have hnot := mergeStepPlan_imp_not_avail hsub hplan
      have hne : n ≠ import_name := fun hc => hnot (hc ▸ hn)
      by_cases hcf : s.copyFails = true
      · simp only [hplan, hcf, if_true] at hmem
        exact ih existing (aremove disk import_name) flag n
          (fun m hm => hsub m (avail_aremove_subset m hm))
          ((mem_avail_aremove hne).mpr hn) hmem
      · have hcf2 : s.copyFails = false := by simpa using hcf
        simp only [hplan, hcf2, Bool.false_eq_true, if_false] at hmem
        rcases List.mem_cons.mp hmem with heq | hmem2
        · exact hne heq
        · refine ih (import_name :: existing) _ flag n ?_ ?_ hmem2
          · intro m hm
            rcases avail_aset_subset m hm with rfl | hm2
            · exact List.mem_cons_self _ _
            · exact List.mem_cons_of_mem _ (hsub m (avail_aremove_subset m hm2))
          · exact (mem_avail_aset_ne hne).mpr ((mem_avail_aremove hne).mpr hn)

theorem mergeSetsLoop_failed_ignored (decider : Option (String → ConflictDecision))
    (now : String) :
    ∀ (staged : List StagedSet) (existing : List String)
      (disk : List (String × SetDirFiles)) (flag : Bool) (s : StagedSet),
      s ∈ staged → s.copyFails = true →
      s.name ∈ (mergeSetsLoop decider now staged existing disk flag).1.ignored := by
  intro staged
  induction staged with
  | nil => intro _ _ _ s hmem; cases hmem
  | cons t rest ih =>
    intro existing disk flag s hmem hfail
    rcases List.mem_cons.mp hmem with rfl | hmem2
    · simp only [mergeSetsLoop]
      cases hplan : mergeStepPlan decider existing disk s flag with
      | skip newFlag => exact List.mem_cons_self _ _
      | imp import_name renamedFlag =>
        simp only [hfail, if_true]
        exact List.mem_cons_self _ _
    · simp only [mergeSetsLoop]
      cases hplan : mergeStepPlan decider existing disk t flag with
      | skip newFlag =>
        exact List.mem_cons_of_mem _ (ih existing disk newFlag s hmem2 hfail)
      | imp import_name renamedFlag =>
        by_cases hcf : t.copyFails = true
        · simp only [hcf, if_true]
          exact List.mem_cons_of_mem _
            (ih existing (aremove disk import_name) flag s hmem2 hfail)
        · have hcf2 : t.copyFails = false := by simpa using hcf
          simp only [hcf2, Bool.false_eq_true, if_false]
          exact ih (import_name :: existing) _ flag s hmem2 hfail

theorem suffixedName_ne (name : String) (k : Nat) : suffixedName name k ≠ name := by
  intro h
  have hd := congrArg String.data h
  simp only [suffixedName, String.data_append] at hd
  have hl := congrArg List.length hd
  simp only [List.length_append] at hl
  have h1 : (" " : String).data.length = 1 := rfl
  rw [h1] at hl
  omega

theorem mergeStepPlan_headless_col {existing : List String}
    {disk : List (String × SetDirFiles)} {s : StagedSet} (hc : s.name ∈ existing) :
    mergeStepPlan none existing disk s false =
      .imp (autoRenameName s.name existing) true := by
  unfold mergeStepPlan
  rw [if_pos hc, if_neg Bool.false_ne_true]
  rfl

theorem mergeStepPlan_nocol {decider : Option (String → ConflictDecision)}
    {existing : List String} {disk : List (String × SetDirFiles)} {s : StagedSet}
    {flag : Bool} (hc : s.name ∉ existing) :
    mergeStepPlan decider existing disk s flag = .imp s.name false := by
  unfold mergeStepPlan
  rw [if_neg hc]

/-- The intended behaviour of headless merge-mode import, written as a
relation: each staged set whose name is free is imported under its own name
with its content copied verbatim; each colliding one is imported under
`name k` for the least free `k ≥ 2`, with its `set.json` rewritten to the
new name and stamped, and recorded in the renamed list; nothing is ignored
(the final disk is threaded through, with each import claiming its name). -/
inductive HeadlessMerge (now : String) :
    List String → List (String × SetDirFiles) → List StagedSet →
    List String → List (String × String) → List (String × SetDirFiles) → Prop where
  | nil (taken : List String) (disk : List (String × SetDirFiles)) :
      HeadlessMerge now taken disk [] [] [] disk
  | keep {taken : List String} {disk : List (String × SetDirFiles)}
      {s : StagedSet} {rest : List StagedSet} {imp : List String}
      {ren : List (String × String)} {disk2 : List (String × SetDirFiles)} :
      s.name ∉ taken →
      HeadlessMerge now (s.name :: taken)
        (aset (aremove disk s.name) s.name s.content) rest imp ren disk2 →
      HeadlessMerge now taken disk (s :: rest) (s.name :: imp) ren disk2
  | rename {taken : List String} {disk : List (String × SetDirFiles)}
      {s : StagedSet} {rest : List StagedSet} {imp : List String}
      {ren : List (String × String)} {disk2 : List (String × SetDirFiles)}
      (k : Nat) :
      s.name ∈ taken →
      2 ≤ k →
      suffixedName s.name k ∉ taken →
      (∀ j, 2 ≤ j → j < k → suffixedName s.name j ∈ taken) →
      HeadlessMerge now (suffixedName s.name k :: taken)
        (aset (aremove disk (suffixedName s.name k)) (suffixedName s.name k)
          (rewriteStagedName s.content (suffixedName s.name k) now)) rest imp ren disk2 →
      HeadlessMerge now taken disk (s :: rest) (suffixedName s.name k :: imp)
        ((s.name, suffixedName s.name k) :: ren) disk2

theorem mergeSetsLoop_headless (now : String) :
    ∀ (staged : List StagedSet) (existing : List String)
      (disk : List (String × SetDirFiles)),
      (∀ s ∈ staged, s.copyFails = false) →
      HeadlessMerge now existing disk staged
        (mergeSetsLoop none now staged existing disk false).1.imported
        (mergeSetsLoop none now staged existing disk false).1.renamed
        (mergeSetsLoop none now staged existing disk false).2 ∧
      (mergeSetsLoop none now staged existing disk false).1.ignored = [] := by
  intro staged
  induction staged with
  | nil =>
    intro existing disk _
    exact ⟨HeadlessMerge.nil existing disk, rfl⟩
  | cons s rest ih =>
    intro existing disk hnf
    have hfail : s.copyFails = false := hnf s (List.mem_cons_self _ _)
    have hnf2 : ∀ t ∈ rest, t.copyFails = false :=
      fun t ht => hnf t (List.mem_cons_of_mem _ ht)
    by_cases hcol : s.name ∈ existing
    · have hplan := @mergeStepPlan_headless_col existing disk s hcol
      obtain ⟨hfree, hge, hmin⟩ := findFreeIdx_spec (suffixedName s.name)
        (suffixedName_injective s.name) existing 2
      have hauto : autoRenameName s.name existing =
          suffixedName s.name (findFreeIdx (suffixedName s.name) existing 2) := rfl
      have hne := suffixedName_ne s.name (findFreeIdx (suffixedName s.name) existing 2)
      simp only [mergeSetsLoop, hplan, hfail, Bool.false_eq_true, if_false]
      rw [hauto]
      rw [if_pos hne]
      simp only [if_true]
      exact ⟨HeadlessMerge.rename (findFreeIdx (suffixedName s.name) existing 2)
        hcol hge hfree hmin (ih _ _ hnf2).1, (ih _ _ hnf2).2⟩
    · have hplan := @mergeStepPlan_nocol none existing disk s false hcol
      simp only [mergeSetsLoop, hplan, hfail, Bool.false_eq_true, if_false]
      rw [if_neg (fun h => h rfl)]
      exact ⟨HeadlessMerge.keep hcol (ih _ _ hnf2).1, (ih _ _ hnf2).2⟩

/-- C4: headless merge-mode vault import (no conflict resolver available, no
copy failures) realises the intended auto-rename semantics: every staged set
whose name is free on disk is imported under its own name; every colliding
one is imported under `name k` for the least free counter `k` starting at 2,
with its `set.json` name rewritten and the pair recorded in the renamed
list; no set is ignored, and the sets already on disk are left unmodified. -/
theorem c4_headless_auto_rename (disk : List (String × SetDirFiles))
    (icons stagedIcons : List (String × List String)) (staged : List StagedSet)
    (now : String) (hnofail : ∀ s ∈ staged, s.copyFails = false) :
    HeadlessMerge now (get_available_sets disk) disk staged
      (import_vault_merge disk icons stagedIcons staged none now).1.imported
      (import_vault_merge disk icons stagedIcons staged none now).1.renamed
      (import_vault_merge disk icons stagedIcons staged none now).2.1 ∧
    (import_vault_merge disk icons stagedIcons staged none now).1.ignored = [] ∧
    (∀ n ∈ get_available_sets disk,
      alookup (import_vault_merge disk icons stagedIcons staged none now).2.1 n =
        alookup disk n) := by
  obtain ⟨h1, h2⟩ := mergeSetsLoop_headless now staged (get_available_sets disk) disk hnofail
  exact ⟨h1, h2, fun n hn =>
    mergeSetsLoop_frame none now staged (get_available_sets disk) disk false n
      (fun m hm => hm) hn⟩

/-- A one-set vault and two staged sets (one colliding) for the C4 witness. -/
def c4disk : List (String × SetDirFiles) :=
  [("A", { set_json := .ok { name := some "A" }, cards_json := .absent })]

def c4staged : List StagedSet :=
  [{ name := "A", content := { set_json := .ok { name := some "A" }, cards_json := .absent },
     copyFails := false },
   { name := "B", content := { set_json := .absent, cards_json := .absent },
     copyFails := false }]

/-- C4 witness: the headless merge of the concrete staged sets satisfies the
auto-rename relation, ignores nothing, and leaves the existing set intact. -/
theorem c4_witness :
    (∀ s ∈ c4staged, s.copyFails = false) ∧
    (HeadlessMerge "t" (get_available_sets c4disk) c4disk c4staged
       (import_vault_merge c4disk [] [] c4staged none "t").1.imported
       (import_vault_merge c4disk [] [] c4staged none "t").1.renamed
       (import_vault_merge c4disk [] [] c4staged none "t").2.1 ∧
     (import_vault_merge c4disk [] [] c4staged none "t").1.ignored = [] ∧
     (∀ n ∈ get_available_sets c4disk,
       alookup (import_vault_merge c4disk [] [] c4staged none "t").2.1 n =
         alookup c4disk n)) :=
  ⟨by decide, c4_headless_auto_rename c4disk [] [] c4staged "t" (by decide)⟩

/-- C5: in merge-mode vault import with an interactive resolver, (1) the
existing set directories are never modified - in particular an ignored
colliding set stays byte-for-byte intact; (2) a colliding staged set whose
decision is Ignore or Ignore-all is recorded in the ignored list and never
imported; (3) a per-set copy failure is caught, recorded in the ignored
list, and processing continues (the operation still returns a result for
every other set; nothing escapes). -/
theorem c5_merge_ignore_frame (disk : List (String × SetDirFiles))
    (icons stagedIcons : List (String × List String)) (staged : List StagedSet)
    (f : String → ConflictDecision) (now : String) :
    (∀ n ∈ get_available_sets disk,
      alookup (import_vault_merge disk icons stagedIcons staged (some f) now).2.1 n =
        alookup disk n) ∧
    (∀ s ∈ staged, s.name ∈ get_available_sets disk →
      (f s.name = .ignore ∨ f s.name = .ignoreAll) →
      s.name ∈ (import_vault_merge disk icons stagedIcons staged (some f) now).1.ignored ∧
      s.name ∉ (import_vault_merge disk icons stagedIcons staged (some f) now).1.imported) ∧
    (∀ s ∈ staged, s.copyFails = true →
      s.name ∈ (import_vault_merge disk icons stagedIcons staged (some f) now).1.ignored) := by
  refine ⟨?_, ?_, ?_⟩
  · intro n hn
    exact mergeSetsLoop_frame (some f) now staged (get_available_sets disk) disk false n
      (fun m hm => hm) hn
  · intro s hmem hcol hdec
    constructor
    · refine mergeSetsLoop_ignored f now staged (get_available_sets disk) disk false s
        hmem hcol ?_
      rcases hdec with hd | hd
      · exact Or.inl hd
      · exact Or.inr (Or.inl hd)
    · exact mergeSetsLoop_avail_not_imported (some f) now staged (get_available_sets disk)
        disk false s.name (fun m hm => hm) hcol
  · intro s hmem hfail
    exact mergeSetsLoop_failed_ignored (some f) now staged (get_available_sets disk)
      disk false s hmem hfail

/-- A one-set vault and a colliding staged set for the C5 witness. -/
def c5disk : List (String × SetDirFiles) :=
  [("A", { set_json := .ok { name := some "A" }, cards_json := .absent })]

def c5staged : List StagedSet :=
  [{ name := "A", content := { set_json := .absent, cards_json := .absent },
     copyFails := false }]

def c5f : String → ConflictDecision := fun _ => .ignore

/-- C5 witness: with decision Ignore, the colliding set is recorded ignored,
not imported, and the existing directory is unchanged. -/
theorem c5_witness :
    alookup (import_vault_merge c5disk [] [] c5staged (some c5f) "t").2.1 "A" =
      alookup c5disk "A" ∧
    "A" ∈ (import_vault_merge c5disk [] [] c5staged (some c5f) "t").1.ignored :=
  ⟨(c5_merge_ignore_frame c5disk [] [] c5staged c5f "t").1 "A" (by decide),
   ((c5_merge_ignore_frame c5disk [] [] c5staged c5f "t").2.1
      { name := "A", content := { set_json := .absent, cards_json := .absent },
        copyFails := false } (by decide) (by decide) (Or.inl rfl)).1⟩

end FlashCardProof
